import Mathlib

set_option maxRecDepth 10000

/-!
Verification of the structural annotation engine of `vs_utils/utils/nnscore_pdb.py`:
ring enumeration and aromaticity classification, charge-site detection, and the
dihedral-driven secondary-structure classifier with its fixed-point post-processing.

The Python source is shallowly embedded: dictionaries keyed by integer atom indices
become association lists `List (Nat × Atom)`, mutation becomes explicit state
passing, coordinates are exact rationals, and Python errors (KeyError-free paths
are assumed well formed; the one unbound-variable read in `ring_is_flat` and the
missing-backbone-atom read in `get_structure_dict`) are modelled by `Option`.

The geometry primitives (`Point`, `average_point`, `dihedral`, `magnitude`) live in
the excluded collaborator module `nnscore_utils`, which is not part of the sources
under verification; following the spec they are treated as contracts: points are
rational triples, the degree-valued dihedral function is an abstract parameter
`dd`, and square-root-based quantities (distances, magnitudes, radii) are carried
as their squares, which is faithful for every comparison the engine performs
(`sqrt s < 6 ↔ s < 36`, `sqrt s ≠ 0 ↔ s ≠ 0`, and `max` commutes with `sqrt`).
-/

/-- Modelled from the spec: the excluded geometry collaborator's point type
(3D coordinates); coordinates are exact rationals. -/
structure Point where
  x : ℚ
  y : ℚ
  z : ℚ
deriving DecidableEq, Repr

/-- Squared Euclidean distance between two points.  The source compares
`dist_to` (a square root) against constants; all such comparisons are made on
squares here. -/
def distSq (p q : Point) : ℚ :=
  (p.x - q.x) * (p.x - q.x) + (p.y - q.y) * (p.y - q.y) + (p.z - q.z) * (p.z - q.z)

/-- Squared magnitude of a point.  The source tests `magnitude() != 0`, which for
rational coordinates is equivalent to the sum of squares being nonzero. -/
def magnitudeSq (p : Point) : ℚ := p.x * p.x + p.y * p.y + p.z * p.z

/-- Modelled from the spec: `average_point` of the excluded collaborator, the
componentwise mean of a list of points. -/
def average_point (pts : List Point) : Point :=
  let n : ℚ := pts.length
  ⟨(pts.map Point.x).sum / n, (pts.map Point.y).sum / n, (pts.map Point.z).sum / n⟩

/-- Modelled from the spec: vector subtraction of the excluded collaborator. -/
def vector_subtraction (b a : Point) : Point := ⟨b.x - a.x, b.y - a.y, b.z - a.z⟩

/-- Modelled from the spec: the cross product of the excluded collaborator. -/
def CrossProduct (u v : Point) : Point :=
  ⟨u.y * v.z - u.z * v.y, u.z * v.x - u.x * v.z, u.x * v.y - u.y * v.x⟩

/-- Python's `str.strip()` on the atom-name fields. -/
def pyStrip (s : String) : String :=
  ⟨((s.data.dropWhile Char.isWhitespace).reverse.dropWhile Char.isWhitespace).reverse⟩

/-- An atom of the graph model (`Atom` of the excluded `nnscore_utils`, with the
fields the annotation engine reads).  `structure_` is the mutable
secondary-structure label. -/
structure Atom where
  atomname : String
  residue : String
  chain : String
  element : String
  resid : Int
  coordinates : Point
  structure_ : String
  indices_of_atoms_connecting : List Nat
deriving DecidableEq, Repr

/-- Placeholder atom for association-list lookups that would raise `KeyError` in
Python; its fields match nothing the rules test for. -/
def dummyAtom : Atom := ⟨"", "", "", "", 0, ⟨0, 0, 0⟩, "", []⟩

/-- The in-memory PDB model: `all_atoms` and `non_protein_atoms` dictionaries,
embedded as association lists in insertion (index) order. -/
structure PDB where
  all_atoms : List (Nat × Atom)
  non_protein_atoms : List (Nat × Atom)
deriving DecidableEq, Repr

/-- Lookup in `self.all_atoms`. -/
def getAtom (p : PDB) (i : Nat) : Atom := ((p.all_atoms.lookup i).getD dummyAtom)

/-- Lookup in `self.non_protein_atoms` (used by `ring_is_flat`). -/
def getAtomNP (p : PDB) (i : Nat) : Atom := ((p.non_protein_atoms.lookup i).getD dummyAtom)

/-- Source `connected_atoms_of_given_element`: indices of all neighbors of the
atom at `index` whose element is `con_element`. -/
def connected_atoms_of_given_element (p : PDB) (index : Nat) (con_element : String) : List Nat :=
  (getAtom p index).indices_of_atoms_connecting.filter
    (fun con_index => (getAtom p con_index).element = con_element)

/-- Source `connected_heavy_atoms`: indices of all connected non-hydrogen atoms. -/
def connected_heavy_atoms (p : PDB) (index : Nat) : List Nat :=
  (getAtom p index).indices_of_atoms_connecting.filter
    (fun con_index => (getAtom p con_index).element ≠ "H")

/-- A charged-site record (`Charged` of the excluded `nnscore_utils`): anchor
point, member atom indices, and sign. -/
structure Charged where
  coordinates : Point
  indices : List Nat
  positive : Bool
deriving DecidableEq, Repr

/-- An aromatic ring marker (`AromaticRing` of the excluded `nnscore_utils`):
center, member indices, plane coefficients `[a,b,c,d]`, and squared radius (the
source stores the radius itself; only its square is ever needed and the map
`sqrt` is monotone, so the square is carried). -/
structure AromaticRing where
  center : Point
  indices : List Nat
  plane : List ℚ
  radius_sq : ℚ
deriving DecidableEq, Repr

/-! ## `remove_redundant_rings` (module-level function, source lines 30-66) -/

/-- Python's `sorted` on a list of atom indices (insertion sort). -/
def insertSorted (x : Nat) : List Nat → List Nat
  | [] => [x]
  | y :: ys => if x ≤ y then x :: y :: ys else y :: insertSorted x ys

/-- Python's `sorted(ring)`. -/
def pySorted (l : List Nat) : List Nat := l.foldr insertSorted []

/-- Deduplication of the sorted rings.  The source round-trips each sorted ring
through `str` and a Python `set`; two rings collide exactly when their sorted
lists are equal, so this is deduplication keeping one representative per sorted
list (the set's iteration order is unspecified in Python; first-occurrence order
is fixed here). -/
def pyDedup : List (List Nat) → List (List Nat)
  | [] => []
  | x :: xs => x :: (pyDedup xs).filter (fun y => y ≠ x)

/-- The deduplicated candidate list built by `remove_redundant_rings` before its
superset-deletion loop: drop empty rings, sort each ring, deduplicate. -/
def dedup_rings (rings : List (List Nat)) : List (List Nat) :=
  pyDedup ((rings.filter (fun ring => ¬ ring.isEmpty)).map pySorted)

/-- One deletion test of the double loop: `fst_index == snd_index: continue`,
then delete `snd` from the dictionary when `set(fst_ring).issubset(set(snd_ring))`.
The source keys its dictionary by position in the deduplicated list; since the
deduplicated rings are pairwise distinct, keying by the ring itself is the same,
and `del` guarded by membership is removal of every copy. -/
def ringDeleteStep (fst : List Nat) (ring_dict : List (List Nat)) (snd : List Nat) :
    List (List Nat) :=
  if fst = snd then ring_dict
  else if fst.toFinset ⊆ snd.toFinset then ring_dict.filter (fun r => r ≠ snd)
  else ring_dict

/-- Source `remove_redundant_rings`: drop empty rings, deduplicate by sorted
member list, then delete every ring some distinct ring is a subset of. -/
def remove_redundant_rings (rings : List (List Nat)) : List (List Nat) :=
  let rings := dedup_rings rings
  rings.foldl (fun ring_dict fst => rings.foldl (ringDeleteStep fst) ring_dict) rings

/-- The deletion condition of the double loop: a distinct ring whose atom set is
contained in the candidate's atom set. -/
def DelCond (fst snd : List Nat) : Prop := fst ≠ snd ∧ fst.toFinset ⊆ snd.toFinset

instance (fst snd : List Nat) : Decidable (DelCond fst snd) := by
  unfold DelCond; infer_instance

/-! ## Ring enumeration (`all_rings_containing_atom` / `ring_recursive`, lines 1155-1199) -/

/-- Source `ring_recursive`, with an explicit recursion budget.  The source
recursion aborts as soon as the carried path `already_crossed` is longer than 6,
so from a carried path of length `n` the recursion depth is bounded by `8 - n`;
the budget makes the recursion structural without changing any result (see
`ring_recursive_eq`). -/
def ringRecAux (p : PDB) : Nat → Nat → List Nat → Nat → List (List Nat)
  | 0, _, _, _ => []
  | fuel + 1, index, already_crossed, orig =>
    if 6 < already_crossed.length then []
    else
      ((getAtom p index).indices_of_atoms_connecting.map (fun connected_atom =>
        (if connected_atom ∈ already_crossed then []
         else ringRecAux p fuel connected_atom (already_crossed ++ [index]) orig)
        ++ (if connected_atom = orig ∧ already_crossed.getLast? ≠ some orig
            then [already_crossed ++ [index]] else []))).flatten

/-- Source `ring_recursive(index, already_crossed, orig_atom, all_rings)`: the
rings appended to `all_rings` by one call, in append order.  For each neighbor
the source first recurses (when the neighbor is not on the carried path) and
then records `updated_crossings` when the neighbor closes the walk back to
`orig_atom` without being the immediately preceding atom (`already_crossed[-1]`,
always defined on the nonempty carried paths the source builds). -/
def ring_recursive (p : PDB) (index : Nat) (already_crossed : List Nat) (orig : Nat) :
    List (List Nat) :=
  ringRecAux p (8 - already_crossed.length) index already_crossed orig

/-- Source `all_rings_containing_atom`: start one walk from every neighbor of
the atom, carrying the path `[index]`. -/
def all_rings_containing_atom (p : PDB) (index : Nat) : List (List Nat) :=
  (getAtom p index).indices_of_atoms_connecting.flatMap
    (fun connected_atom => ring_recursive p connected_atom [index] index)

/-- Consecutive adjacency along a path, following the direction of the walk:
each atom lists its successor among its bonded indices. -/
def chainAdj (p : PDB) : List Nat → Bool
  | a :: b :: rest =>
    decide (b ∈ (getAtom p a).indices_of_atoms_connecting) && chainAdj p (b :: rest)
  | _ => true

/-- A triangle molecule: three mutually bonded carbons (concrete witness input). -/
def triPDB : PDB :=
  let mk : Nat → List Nat → Nat × Atom := fun i nbrs =>
    (i, ⟨"C", "LIG", "A", "C", 1, ⟨i, 0, 0⟩, "", nbrs⟩)
  let atoms := [mk 1 [2, 3], mk 2 [3, 1], mk 3 [1, 2]]
  ⟨atoms, atoms⟩

/-! ## Aromaticity classification (`ring_is_flat`, `get_aromatic_marker`,
`assign_non_protein_aromatic_rings`, `assign_protein_aromatic_rings`,
source lines 1025-1153 and 1202-1313) -/

/-- Modelled from the spec: the degree-valued dihedral angle of four points.
The excluded collaborator returns radians in `(-pi, pi]` and every call site
multiplies by `180/pi` before comparing; that composite map is abstracted as a
rational-valued parameter. -/
abbrev Dihedral := Point → Point → Point → Point → ℚ

/-- Python list indexing `ring[t]` for `t` in `[-len, len)`: negative indices
wrap around. -/
def pyGet (l : List Nat) (t : Int) : Nat := l.getD ((t % (l.length : Int)).toNat) 0

/-- The dihedral test of `ring_is_flat`: strictly between 15 and 165 degrees in
absolute value. -/
def bad_dihedral (angle : ℚ) : Bool :=
  (decide (angle > -165) && decide (angle < -15)) || (decide (angle > 15) && decide (angle < 165))

/-- The loop of source `ring_is_flat` over `t in range(-3, len(ring)-3)`.  The
accumulator models the local variable `is_flat`, whose initialization
`is_flat = True` is commented out in the source: `none` is the unassigned state,
and returning `none` models the Python `UnboundLocalError` raised by
`return is_flat` when no check ever fired.  A four-neighbor ring carbon returns
`False` immediately; a bad ring dihedral sets `is_flat` and breaks; a bad
substituent dihedral sets `is_flat` and only breaks the inner loop. -/
def ring_is_flat_loop (dd : Dihedral) (p : PDB) (ring : List Nat) :
    List Int → Option Bool → Option Bool
  | [], is_flat => is_flat
  | t :: ts, is_flat =>
    let pt1 := (getAtomNP p (pyGet ring t)).coordinates
    let pt2 := (getAtomNP p (pyGet ring (t + 1))).coordinates
    let pt3 := (getAtomNP p (pyGet ring (t + 2))).coordinates
    let pt4 := (getAtomNP p (pyGet ring (t + 3))).coordinates
    let cur_atom := getAtomNP p (pyGet ring (t + 3))
    if cur_atom.element = "C" ∧ cur_atom.indices_of_atoms_connecting.length = 4 then
      some false
    else if bad_dihedral (dd pt1 pt2 pt3 pt4) then
      some false
    else if cur_atom.indices_of_atoms_connecting.any (fun substituent_atom_index =>
        bad_dihedral (dd pt2 pt3 pt4 (getAtomNP p substituent_atom_index).coordinates)) then
      ring_is_flat_loop dd p ring ts (some false)
    else
      ring_is_flat_loop dd p ring ts is_flat

/-- Source `ring_is_flat`.  `some b`: the source returns `b`; `none`: the source
raises `UnboundLocalError` on `return is_flat`. -/
def ring_is_flat (dd : Dihedral) (p : PDB) (ring : List Nat) : Option Bool :=
  ring_is_flat_loop dd p ring ((List.range ring.length).map (fun k => (k : Int) - 3)) none

/-- The origin, used as the default for guarded positional lookups. -/
def zeroPoint : Point := ⟨0, 0, 0⟩

/-- Source `get_aromatic_marker`.  `none` models the `ValueError` raised for
fewer than 3 member indices.  The center is the componentwise mean (the source
accumulates into a numpy array), the plane is fitted from three
ring-size-dependent representative points, and the radius is carried squared. -/
def get_aromatic_marker (p : PDB) (indices_of_ring : List Nat) : Option AromaticRing :=
  if indices_of_ring.length < 3 then none
  else
    let pts := indices_of_ring.map (fun index => (getAtom p index).coordinates)
    let center := average_point pts
    let radius_sq := (pts.map (fun q => distSq center q)).foldl max 0
    let A := pts.getD 0 zeroPoint
    let B := if indices_of_ring.length = 3 then pts.getD 1 zeroPoint
             else if indices_of_ring.length = 4 then pts.getD 1 zeroPoint
             else pts.getD 2 zeroPoint
    let C := if indices_of_ring.length = 3 then pts.getD 2 zeroPoint
             else if indices_of_ring.length = 4 then pts.getD 3 zeroPoint
             else pts.getD 4 zeroPoint
    let ABXAC := CrossProduct (vector_subtraction B A) (vector_subtraction C A)
    let x1 := (getAtom p (indices_of_ring.getD 0 0)).coordinates
    some ⟨center, indices_of_ring,
      [ABXAC.x, ABXAC.y, ABXAC.z, ABXAC.x * x1.x + ABXAC.y * x1.y + ABXAC.z * x1.z],
      radius_sq⟩

/-- Sequencing of a list of fallible results: `none` as soon as any element is
`none` (a raised exception aborts the whole Python call). -/
def optList {α : Type} : List (Option α) → Option (List α)
  | [] => some []
  | none :: _ => none
  | some a :: rest => (optList rest).map (fun l => a :: l)

/-- Source `assign_non_protein_aromatic_rings`: enumerate rings from every
non-protein atom, deduplicate and drop supersets, keep sizes 5 and 6, keep flat
rings, and build a marker for each survivor.  `none` models an uncaught
exception (in particular `ring_is_flat`'s unbound read on a flat ring). -/
def assign_non_protein_aromatic_rings (dd : Dihedral) (p : PDB) :
    Option (List AromaticRing) :=
  let rings0 := p.non_protein_atoms.flatMap (fun ia => all_rings_containing_atom p ia.1)
  let rings1 := remove_redundant_rings rings0
  let rings2 := rings1.filter (fun ring => decide (ring.length = 5) || decide (ring.length = 6))
  (optList (rings2.map (fun ring => (ring_is_flat dd p ring).map (fun b => (ring, b))))).bind
    (fun flagged =>
      optList (((flagged.filter (fun rb => rb.2)).map (fun rb => rb.1)).map
        (fun ring => get_aromatic_marker p ring)))

/-- Insertion of an atom index into its residue group, preserving first-seen
group order (Python dict keyed by RESNAME_RESNUMBER_CHAIN; keys are kept
structured here, as the spec's design notes direct). -/
def addAtomToResidue (key : String × Int × String) (i : Nat) :
    List ((String × Int × String) × List Nat) → List ((String × Int × String) × List Nat)
  | [] => [(key, [i])]
  | kv :: rest =>
    if kv.1 = key then (key, kv.2 ++ [i]) :: rest else kv :: addAtomToResidue key i rest

/-- Source `get_residues`: group atom indices by (residue name, residue number,
chain). -/
def get_residues (p : PDB) : List ((String × Int × String) × List Nat) :=
  p.all_atoms.foldl (fun residues ia =>
    addAtomToResidue (ia.2.residue, ia.2.resid, ia.2.chain) ia.1 residues) []

/-- Source `get_residue_aromatics`: for each accepted residue, collect the atoms
whose stripped name is in `ring_atomnames`; fewer than 3 are silently skipped,
otherwise a marker is recorded.  The acceptance test is passed as a predicate
because the source's `real_resname in resname` is a substring test when callers
pass a string and a membership test when they pass a list. -/
def get_residue_aromatics (p : PDB) (residues : List ((String × Int × String) × List Nat))
    (accept : String → Bool) (ring_atomnames : List String) : List AromaticRing :=
  residues.foldl (fun aromatics kv =>
    if accept kv.1.1 then
      let indices_of_ring := kv.2.filter (fun index =>
        decide (pyStrip (getAtom p index).atomname ∈ ring_atomnames))
      if indices_of_ring.length < 3 then aromatics
      else
        match get_aromatic_marker p indices_of_ring with
        | some m => aromatics ++ [m]
        | none => aromatics
    else aromatics) []

/-- Source `get_phenylalanine_aromatics`; `resname` is the string `"PHE"`, so
the acceptance test is Python substring containment. -/
def get_phenylalanine_aromatics (p : PDB)
    (residues : List ((String × Int × String) × List Nat)) : List AromaticRing :=
  get_residue_aromatics p residues (fun s => decide (s.data <:+: "PHE".data))
    ["CG", "CD1", "CE1", "CZ", "CE2", "CD2"]

/-- Source `get_tyrosine_aromatics`; substring acceptance against `"TYR"`. -/
def get_tyrosine_aromatics (p : PDB)
    (residues : List ((String × Int × String) × List Nat)) : List AromaticRing :=
  get_residue_aromatics p residues (fun s => decide (s.data <:+: "TYR".data))
    ["CG", "CD1", "CE1", "CZ", "CE2", "CD2"]

/-- Source `get_histidine_aromatics`; list-membership acceptance. -/
def get_histidine_aromatics (p : PDB)
    (residues : List ((String × Int × String) × List Nat)) : List AromaticRing :=
  get_residue_aromatics p residues (fun s => decide (s ∈ ["HIS", "HID", "HIE", "HIP"]))
    ["CG", "ND1", "CE1", "NE2", "CD2"]

/-- Source `get_tryptophan_aromatics`: the 5-membered then the 6-membered ring. -/
def get_tryptophan_aromatics (p : PDB)
    (residues : List ((String × Int × String) × List Nat)) : List AromaticRing :=
  get_residue_aromatics p residues (fun s => decide (s ∈ ["TRP"]))
      ["CG", "CD1", "NE1", "CE2", "CD2"]
    ++ get_residue_aromatics p residues (fun s => decide (s ∈ ["TRP"]))
      ["CE2", "CD2", "CE3", "CZ3", "CH2", "CZ2"]

/-- Source `assign_protein_aromatic_rings`: accumulate the residue-rule markers
in source order. -/
def assign_protein_aromatic_rings (p : PDB) : List AromaticRing :=
  let residues := get_residues p
  get_phenylalanine_aromatics p residues ++ get_tyrosine_aromatics p residues
    ++ get_histidine_aromatics p residues ++ get_tryptophan_aromatics p residues

/-- The aromatic markers accumulated on the model by `load_from_files`:
non-protein assignment then protein assignment. -/
def assign_aromatic_rings (dd : Dihedral) (p : PDB) : Option (List AromaticRing) :=
  (assign_non_protein_aromatic_rings dd p).map
    (fun nonprot => nonprot ++ assign_protein_aromatic_rings p)

/-- A dihedral contract under which every torsion is exactly 0 degrees: a
perfectly planar geometry. -/
def dd0 : Dihedral := fun _ _ _ _ => 0

/-- A six-membered non-protein carbocycle with planar coordinates: carbons 1-6
bonded in a cycle, no other atoms. -/
def hexPDB : PDB :=
  let mk : Nat → Nat → Nat → Nat × Atom := fun i l r =>
    (i, ⟨"C", "LIG", "A", "C", 1, ⟨i, i * i, 0⟩, "", [l, r]⟩)
  let atoms := [mk 1 6 2, mk 2 1 3, mk 3 2 4, mk 4 3 5, mk 5 4 6, mk 6 5 1]
  ⟨atoms, atoms⟩

/-- A phenylalanine residue with only three of its six ring atoms resolved
(incomplete crystal structure). -/
def phePDB : PDB :=
  let mk : Nat → String → ℚ → ℚ → Nat × Atom := fun i nm x y =>
    (i, ⟨nm, "PHE", "A", "C", 1, ⟨x, y, 0⟩, "", []⟩)
  ⟨[mk 1 "CG" 0 0, mk 2 "CD1" 1 0, mk 3 "CD2" 0 1], []⟩

/-! ## Carbon-group charges (`identify_carbon_group_charges`, source lines 688-785) -/

/-- The body of the per-atom loop of source `identify_carbon_group_charges`:
the guanidino-like block followed by the carboxylate block, both guarded by
`atom.element == "C"`.  The fold over `nitrogens` mirrors the source loop that
collects `nitrogens_to_use` and removes each from `all_connected`; the first
remaining connected atom (if any) is the `connector_ind` (the source's `-1`
sentinel is `none`). -/
def carbon_charges_for (p : PDB) (atom_index : Nat) (atom : Atom) : List Charged :=
  let part1 :=
    if atom.element = "C" ∧ atom.indices_of_atoms_connecting.length = 3 then
      let nitrogens := connected_atoms_of_given_element p atom_index "N"
      if 2 ≤ nitrogens.length then
        let s := nitrogens.foldl (fun (st : List Nat × List Nat) atmindex =>
            if (connected_heavy_atoms p atmindex).length = 1 then
              (st.1 ++ [atmindex], st.2.erase atmindex)
            else st)
          ([], atom.indices_of_atoms_connecting)
        let nitrogens_to_use := s.1
        let connector_ind := s.2.head?
        if nitrogens_to_use.length = 3 ∧ connector_ind = none then
          [⟨atom.coordinates, [atom_index], true⟩]
        else if nitrogens_to_use.length = 2 ∧ connector_ind ≠ none then
          let connector_atom := getAtom p (connector_ind.getD 0)
          if (connector_atom.element = "C"
                ∧ connector_atom.indices_of_atoms_connecting.length = 4)
              ∨ (connector_atom.element = "O"
                ∧ connector_atom.indices_of_atoms_connecting.length = 2)
              ∨ connector_atom.element = "N" ∨ connector_atom.element = "S"
              ∨ connector_atom.element = "P" then
            [⟨average_point (nitrogens_to_use.map (fun n => (getAtom p n).coordinates)),
              [atom_index] ++ nitrogens_to_use
                ++ connected_atoms_of_given_element p (nitrogens_to_use.getD 0 0) "H"
                ++ connected_atoms_of_given_element p (nitrogens_to_use.getD 1 0) "H",
              true⟩]
          else []
        else []
      else []
    else []
  let part2 :=
    if atom.element = "C" then
      if atom.indices_of_atoms_connecting.length = 3 then
        let oxygens := connected_atoms_of_given_element p atom_index "O"
        if oxygens.length = 2 then
          if (connected_heavy_atoms p (oxygens.getD 0 0)).length = 1
              ∧ (connected_heavy_atoms p (oxygens.getD 1 0)).length = 1 then
            [⟨average_point (oxygens.map (fun oxygen => (getAtom p oxygen).coordinates)),
              [oxygens.getD 0 0, atom_index, oxygens.getD 1 0], false⟩]
          else []
        else []
      else []
    else []
  part1 ++ part2

/-- Source `identify_carbon_group_charges`: the per-atom contributions over the
non-protein atoms, in iteration order. -/
def identify_carbon_group_charges (p : PDB) : List Charged :=
  p.non_protein_atoms.flatMap (fun ia => carbon_charges_for p ia.1 ia.2)

/-- A carboxylate-bearing molecule: carbon 1 bonded to oxygens 2 and 3 (each
bonded only to the carbon) and hydrogen 4. -/
def carboxPDB : PDB :=
  let c : Nat × Atom := (1, ⟨"C1", "LIG", "A", "C", 1, ⟨0, 0, 0⟩, "", [2, 3, 4]⟩)
  let oa : Nat × Atom := (2, ⟨"O1", "LIG", "A", "O", 1, ⟨1, 1, 0⟩, "", [1]⟩)
  let ob : Nat × Atom := (3, ⟨"O2", "LIG", "A", "O", 1, ⟨1, -1, 0⟩, "", [1]⟩)
  let hy : Nat × Atom := (4, ⟨"H1", "LIG", "A", "H", 1, ⟨-1, 0, 0⟩, "", [1]⟩)
  ⟨[c, oa, ob, hy], [c, oa, ob, hy]⟩

/-! ## Protein residue charges (`get_residue_charges` and its five callers,
source lines 867-1020) -/

/-- The atoms of a residue whose stripped name is among `atomnames` (the
`indices` list collected by the helper's loop). -/
def residue_charge_group (p : PDB) (atomnames : List String) (res : List Nat) : List Nat :=
  res.filter (fun index => decide (pyStrip (getAtom p index).atomname ∈ atomnames))

/-- The atoms of a residue whose stripped name is among `charged_atomnames`
(the `charged_atoms` list collected by the helper's loop). -/
def residue_charged_atoms (p : PDB) (charged_atomnames : List String) (res : List Nat) :
    List Atom :=
  (res.filter (fun index =>
    decide (pyStrip (getAtom p index).atomname ∈ charged_atomnames))).map (getAtom p)

/-- One residue's contribution in source `get_residue_charges`: fire only when
the residue name (its last three characters) is accepted, the number of
matching anchor atoms equals the number of anchor names, and the averaged
anchor has nonzero magnitude (`magnitude() != 0`, which for rational points is
`magnitudeSq ≠ 0`). -/
def residue_contribution (p : PDB) (resnames atomnames charged_atomnames : List String)
    (positive : Bool) (kv : (String × Int × String) × List Nat) : List Charged :=
  if kv.1.1.takeRight 3 ∈ resnames then
    let charged_atoms := residue_charged_atoms p charged_atomnames kv.2
    if charged_atoms.length = charged_atomnames.length then
      let avg_pt := average_point (charged_atoms.map Atom.coordinates)
      if magnitudeSq avg_pt ≠ 0 then
        [⟨avg_pt, residue_charge_group p atomnames kv.2, positive⟩]
      else []
    else []
  else []

/-- Source `get_residue_charges`: accumulate each residue's contribution in
iteration order. -/
def get_residue_charges (p : PDB) (residues : List ((String × Int × String) × List Nat))
    (resnames atomnames charged_atomnames : List String) (positive : Bool) : List Charged :=
  residues.foldl (fun charges kv =>
    charges ++ residue_contribution p resnames atomnames charged_atomnames positive kv) []

/-- Source `get_lysine_charges`. -/
def get_lysine_charges (p : PDB) (residues : List ((String × Int × String) × List Nat)) :
    List Charged :=
  get_residue_charges p residues ["LYS", "LYN"]
    ["NZ", "HZ1", "HNZ1", "HZ2", "HNZ2", "HZ3", "HNZ3"] ["NZ"] true

/-- Source `get_arginine_charges`. -/
def get_arginine_charges (p : PDB) (residues : List ((String × Int × String) × List Nat)) :
    List Charged :=
  get_residue_charges p residues ["ARG"]
    ["NH1", "NH2", "2HH2", "HN22", "1HH2", "HN12", "CZ", "2HH1", "HN21", "1HH1", "HN11"]
    ["NH1", "NH2"] true

/-- Source `get_histidine_charges`. -/
def get_histidine_charges (p : PDB) (residues : List ((String × Int × String) × List Nat)) :
    List Charged :=
  get_residue_charges p residues ["HIS", "HID", "HIE", "HIP"]
    ["NE2", "ND1", "HE2", "HD1", "CE1", "CD2", "CG"] ["NE2", "ND1"] true

/-- Source `get_glutamic_acid_charges`. -/
def get_glutamic_acid_charges (p : PDB) (residues : List ((String × Int × String) × List Nat)) :
    List Charged :=
  get_residue_charges p residues ["GLU", "GLH", "GLX"] ["OE1", "OE2", "CD"]
    ["OE1", "OE2"] false

/-- Source `get_aspartic_acid_charges`. -/
def get_aspartic_acid_charges (p : PDB) (residues : List ((String × Int × String) × List Nat)) :
    List Charged :=
  get_residue_charges p residues ["ASP", "ASH", "ASX"] ["OD1", "OD2", "CG"]
    ["OD1", "OD2"] false

/-- Source `assign_protein_charges`. -/
def assign_protein_charges (p : PDB) : List Charged :=
  let residues := get_residues p
  get_lysine_charges p residues ++ get_arginine_charges p residues
    ++ get_histidine_charges p residues ++ get_glutamic_acid_charges p residues
    ++ get_aspartic_acid_charges p residues

/-- An arginine residue in which the anchor atom name NH1 appears twice and NH2
once: every anchor name is present, yet the matching-atom count is 3, not 2. -/
def dupPDB : PDB :=
  let a1 : Nat × Atom := (1, ⟨"NH1", "ARG", "A", "N", 1, ⟨1, 0, 0⟩, "", []⟩)
  let a2 : Nat × Atom := (2, ⟨"NH1", "ARG", "A", "N", 1, ⟨2, 0, 0⟩, "", []⟩)
  let a3 : Nat × Atom := (3, ⟨"NH2", "ARG", "A", "N", 1, ⟨3, 0, 0⟩, "", []⟩)
  ⟨[a1, a2, a3], []⟩

/-- Claim C7 (amended) witness: a complete arginine anchor pair does
contribute. -/
def argPDB : PDB :=
  let a1 : Nat × Atom := (1, ⟨"NH1", "ARG", "A", "N", 1, ⟨1, 0, 0⟩, "", []⟩)
  let a3 : Nat × Atom := (3, ⟨"NH2", "ARG", "A", "N", 1, ⟨3, 0, 0⟩, "", []⟩)
  ⟨[a1, a3], []⟩

/-! ## Secondary structure: initial labeling (`get_structure_dict`,
source lines 1318-1405) -/

/-- Modelled from the spec: `Atom.side_chain_or_backbone` of the excluded
collaborator; per the spec glossary a backbone atom is a main-chain atom
N, CA, C, or O. -/
def is_backbone (a : Atom) : Bool := decide (pyStrip a.atomname ∈ ["CA", "C", "O", "N"])

/-- The initial-labeling ALPHA window condition
`phi > -145 and phi < -35 and psi > -70 and psi < 50`. -/
def alpha_cond (phi psi : ℚ) : Bool :=
  decide (phi > -145) && decide (phi < -35) && decide (psi > -70) && decide (psi < 50)

/-- The initial-labeling BETA window condition
`(phi >= -180 and phi < -40 and psi <= 180 and psi > 90) or
(phi >= -180 and phi < -70 and psi <= -165)`. -/
def beta_cond (phi psi : ℚ) : Bool :=
  (decide (phi ≥ -180) && decide (phi < -40) && decide (psi ≤ 180) && decide (psi > 90))
    || (decide (phi ≥ -180) && decide (phi < -70) && decide (psi ≤ -165))

/-- Python dict assignment `structure[key] = value` on an association list:
update the existing entry or append a new one. -/
def dictSet (d : List (String × String)) (k v : String) : List (String × String) :=
  if d.any (fun e => decide (e.1 = k)) then d.map (fun e => if e.1 = k then (k, v) else e)
  else d ++ [(k, v)]

/-- The role-assignment loop of `get_structure_dict`: for a residue number and
atom name, the LAST matching atom of the window (the source loop overwrites on
every match; no match leaves the Python local unbound). -/
def find_bb (atoms : List Atom) (r : Int) (nm : String) : Option Atom :=
  (atoms.filter (fun a => decide (a.resid = r) && decide (pyStrip a.atomname = nm))).getLast?

/-- The window residue test of `get_structure_dict`: first four atoms share a
residue number, last four share a residue number, residue numbers are
consecutive, chains match.  The source also writes `atoms[0] != atoms[4].resid`,
comparing the atom object itself with an integer, which never holds in
Python 2; it is the constant `true` conjunct. -/
def window_ok (atoms : List Atom) : Bool :=
  let a := fun k => atoms.getD k dummyAtom
  decide ((a 0).resid = (a 1).resid) && decide ((a 0).resid = (a 2).resid)
    && decide ((a 0).resid = (a 3).resid)
    && true
    && decide ((a 4).resid = (a 5).resid) && decide ((a 4).resid = (a 6).resid)
    && decide ((a 4).resid = (a 7).resid)
    && decide ((a 0).resid + 1 = (a 7).resid)
    && decide ((a 0).chain = (a 7).chain)

/-- One window evaluation of `get_structure_dict`: find the six backbone roles
(`none` models the `NameError` when a role is missing), compute phi and psi,
then run the ALPHA assignment and after it the BETA assignment. -/
def process_window (dd : Dihedral) (atoms : List Atom)
    (structure_dict : List (String × String)) : Option (List (String × String)) :=
  let resid1 := (atoms.getD 0 dummyAtom).resid
  let resid2 := (atoms.getD 7 dummyAtom).resid
  match find_bb atoms resid1 "N", find_bb atoms resid1 "C", find_bb atoms resid1 "CA",
      find_bb atoms resid2 "N", find_bb atoms resid2 "C", find_bb atoms resid2 "CA" with
  | some first_N, some first_C, some first_CA,
      some second_N, some second_C, some second_CA =>
    let phi := dd first_C.coordinates second_N.coordinates second_CA.coordinates
      second_C.coordinates
    let psi := dd first_N.coordinates first_CA.coordinates first_C.coordinates
      second_N.coordinates
    let key1 := toString first_C.resid ++ "_" ++ first_C.chain
    let key2 := toString second_C.resid ++ "_" ++ second_C.chain
    let d1 := if alpha_cond phi psi then
        dictSet (dictSet structure_dict key1 "ALPHA") key2 "ALPHA"
      else structure_dict
    let d2 := if beta_cond phi psi then dictSet (dictSet d1 key1 "BETA") key2 "BETA" else d1
    some d2
  | _, _, _, _, _, _ => none

/-- The sliding state of `get_structure_dict`: the (at most 8) buffered backbone
atoms and the structure dictionary. -/
structure SSState where
  window : List Atom
  structure_dict : List (String × String)
deriving DecidableEq, Repr

/-- One atom of the `get_structure_dict` scan.  Non-backbone atoms are ignored;
while fewer than 8 backbone atoms are buffered the atom is only appended — the
window check runs exclusively in the `else` branch, so the first 8 backbone
atoms are never evaluated as a window; afterwards the oldest atom is popped,
the new one appended, and the full window evaluated. -/
def ss_step (dd : Dihedral) (st : SSState) (atom : Atom) : Option SSState :=
  if is_backbone atom then
    if st.window.length < 8 then some { st with window := st.window ++ [atom] }
    else
      let atoms := st.window.tail ++ [atom]
      if window_ok atoms then
        (process_window dd atoms st.structure_dict).map (fun d => ⟨atoms, d⟩)
      else some ⟨atoms, st.structure_dict⟩
  else some st

/-- Source `get_structure_dict`: initialize every RESNUMBER_CHAIN key to OTHER,
then scan the atoms in load order. -/
def get_structure_dict (dd : Dihedral) (p : PDB) : Option (List (String × String)) :=
  let resids := (get_residues p).map (fun kv => toString kv.1.2.1 ++ "_" ++ kv.1.2.2)
  let structure0 := resids.foldl (fun d resid => dictSet d resid "OTHER") []
  (p.all_atoms.foldl (fun ost ia => ost.bind (fun st => ss_step dd st ia.2))
      (some ⟨[], structure0⟩)).map (fun st => st.structure_dict)

/-- A constant dihedral contract: every torsion is -60 degrees, inside the
ALPHA window for both phi and psi. -/
def ddm60 : Dihedral := fun _ _ _ _ => -60

/-- A backbone atom constructor for the structure-classifier examples. -/
def bbAtom (nm : String) (r : Int) (x : ℚ) : Atom :=
  ⟨nm, "ALA", "A", "X", r, ⟨x, 0, 0⟩, "", []⟩

/-- Exactly 8 backbone atoms across two consecutive residues of one chain. -/
def pdb8 : PDB :=
  ⟨[(1, bbAtom "N" 1 1), (2, bbAtom "CA" 1 2), (3, bbAtom "C" 1 3), (4, bbAtom "O" 1 4),
    (5, bbAtom "N" 2 5), (6, bbAtom "CA" 2 6), (7, bbAtom "C" 2 7), (8, bbAtom "O" 2 8)], []⟩

/-- The buffer state after 8 prior backbone atoms (one before residue 1, then
residues 1 and 2 except the final O). -/
def ssSt0 : SSState :=
  ⟨[bbAtom "O" 0 0,
    bbAtom "N" 1 1, bbAtom "CA" 1 2, bbAtom "C" 1 3, bbAtom "O" 1 4,
    bbAtom "N" 2 5, bbAtom "CA" 2 6, bbAtom "C" 2 7],
   [("1_A", "OTHER"), ("2_A", "OTHER")]⟩

/-! ## Secondary structure: post-processing (`process_alpha_helices`,
`process_beta_sheets`, `set_structure_of_residue`, source lines 1407-1622 and
1651-1655) -/

/-- Source `set_structure_of_residue`: set the structure label of every atom of
the (chain, residue-number) residue.  The source mutates the shared atom
objects, so the same update is visible through `non_protein_atoms`; the
post-processing claims only concern `all_atoms`. -/
def set_structure_of_residue (p : PDB) (chain : String) (resid : Int) (s : String) : PDB :=
  { p with all_atoms := p.all_atoms.map (fun ia =>
      if ia.2.chain = chain ∧ ia.2.resid = resid then (ia.1, { ia.2 with structure_ := s })
      else ia) }

/-- The residues currently labeled `s`: the set of (chain, residue-number) keys
of atoms whose structure label is `s`. -/
def labelKeys (p : PDB) (s : String) : Finset (String × Int) :=
  ((p.all_atoms.filter (fun ia => decide (ia.2.structure_ = s))).map
    (fun ia => (ia.2.chain, ia.2.resid))).toFinset

/-- The alpha pass (a) partner test: another ALPHA alpha-carbon at residue
offset exactly plus-or-minus 3 within 6 Angstroms (squared distance below 36). -/
def alpha_close_exists (p : PDB) (CA_list : List Nat) (CA_atom : Atom) : Bool :=
  CA_list.any (fun other_CA_atom_index =>
    let other := getAtom p other_CA_atom_index
    decide (other.structure_ = "ALPHA")
      && (decide (other.resid - 3 = CA_atom.resid) || decide (other.resid + 3 = CA_atom.resid))
      && decide (distSq other.coordinates CA_atom.coordinates < 36))

/-- Pass (a) of `process_alpha_helices`: drop ALPHA from any alpha-carbon with
no hydrogen-bond partner. -/
def alpha_pass_a (CA_list : List Nat) (pc : PDB × Bool) : PDB × Bool :=
  CA_list.foldl (fun pc CA_atom_index =>
    let CA_atom := getAtom pc.1 CA_atom_index
    if CA_atom.structure_ = "ALPHA" ∧ alpha_close_exists pc.1 CA_list CA_atom = false then
      (set_structure_of_residue pc.1 CA_atom.chain CA_atom.resid "OTHER", true)
    else pc) pc

/-- The structure label at a CA-list entry. -/
def stAt (p : PDB) (i : Nat) : String := (getAtom p i).structure_

/-- Demote the residue of the atom at index `i` to OTHER. -/
def demote (p : PDB) (i : Nat) : PDB :=
  set_structure_of_residue p (getAtom p i).chain (getAtom p i).resid "OTHER"

/-- One run-demotion pattern of pass (b): if the atom before the run and the
atom after the run are not labeled `lbl` while the whole run is, demote the run
and report a change; otherwise leave the state unchanged. -/
def pattern_demote (lbl : String) (pc : PDB × Bool) (pre : Nat) (run : List Nat) (post : Nat) :
    PDB × Bool :=
  if stAt pc.1 pre ≠ lbl ∧ (∀ i ∈ run, stAt pc.1 i = lbl) ∧ stAt pc.1 post ≠ lbl then
    (run.foldl demote pc.1, true)
  else pc

/-- Consecutive residue numbers along a list of CA entries (the `atomK.resid +
1 == atomK1.resid` chain of the source window checks; residue numbers and
chains are never mutated, so reading them from the current state equals reading
the source's atom snapshots). -/
def seqResid (p : PDB) : List Nat → Bool
  | a :: b :: rest =>
    decide ((getAtom p a).resid + 1 = (getAtom p b).resid) && seqResid p (b :: rest)
  | _ => true

/-- The ten run patterns of the alpha pass (b) 6-residue window, in source
order: four singles, three doubles, two triples, one quadruple. -/
def alpha_window_patterns (a b c d e f : Nat) : List (Nat × List Nat × Nat) :=
  [(a, [b], c), (b, [c], d), (c, [d], e), (d, [e], f),
   (a, [b, c], d), (b, [c, d], e), (c, [d, e], f),
   (a, [b, c, d], e), (b, [c, d, e], f),
   (a, [b, c, d, e], f)]

/-- One 6-residue window of alpha pass (b). -/
def alpha_pass_b_window (CA_list : List Nat) (pc : PDB × Bool) (k : Nat) : PDB × Bool :=
  let a := CA_list.getD k 0
  let b := CA_list.getD (k + 1) 0
  let c := CA_list.getD (k + 2) 0
  let d := CA_list.getD (k + 3) 0
  let e := CA_list.getD (k + 4) 0
  let f := CA_list.getD (k + 5) 0
  if seqResid pc.1 [a, b, c, d, e, f] then
    (alpha_window_patterns a b c d e f).foldl
      (fun pc t => pattern_demote "ALPHA" pc t.1 t.2.1 t.2.2) pc
  else pc

/-- Pass (b) of `process_alpha_helices` over `range(len(CA_list)-5)`. -/
def alpha_pass_b (CA_list : List Nat) (pc : PDB × Bool) : PDB × Bool :=
  (List.range (CA_list.length - 5)).foldl (alpha_pass_b_window CA_list) pc

/-- One sweep of the `while change` loop of `process_alpha_helices`:
`change = False`, pass (a), pass (b). -/
def alpha_sweep (CA_list : List Nat) (p : PDB) : PDB × Bool :=
  alpha_pass_b CA_list (alpha_pass_a CA_list (p, false))

/-- The `while change` loop, with an explicit sweep budget; a budget of one more
than the number of ALPHA residues is always sufficient (each changing sweep
strictly decreases that number). -/
def alpha_loop (CA_list : List Nat) : Nat → PDB → PDB
  | 0, p => p
  | fuel + 1, p =>
    match alpha_sweep CA_list p with
    | (p2, true) => alpha_loop CA_list fuel p2
    | (p2, false) => p2

/-- Source `process_alpha_helices`. -/
def process_alpha_helices (CA_list : List Nat) (p : PDB) : PDB :=
  alpha_loop CA_list ((labelKeys p "ALPHA").card + 1) p

/-- The beta pass (a) partner test: a different CA entry, BETA, same chain,
residue-number difference above 2, within 6 Angstroms. -/
def beta_close_exists (p : PDB) (CA_list : List Nat) (CA_atom_index : Nat) (CA_atom : Atom) :
    Bool :=
  CA_list.any (fun other_CA_atom_index =>
    decide (other_CA_atom_index ≠ CA_atom_index)
      && (let other := getAtom p other_CA_atom_index
          decide (other.structure_ = "BETA") && decide (other.chain = CA_atom.chain)
            && decide (2 < (other.resid - CA_atom.resid).natAbs)
            && decide (distSq CA_atom.coordinates other.coordinates < 36)))

/-- Pass (a) of `process_beta_sheets`. -/
def beta_pass_a (CA_list : List Nat) (pc : PDB × Bool) : PDB × Bool :=
  CA_list.foldl (fun pc CA_atom_index =>
    let CA_atom := getAtom pc.1 CA_atom_index
    if CA_atom.structure_ = "BETA"
        ∧ beta_close_exists pc.1 CA_list CA_atom_index CA_atom = false then
      (set_structure_of_residue pc.1 CA_atom.chain CA_atom.resid "OTHER", true)
    else pc) pc

/-- The three run patterns of the beta pass (b) 4-residue window, in source
order: two singles, one double. -/
def beta_window_patterns (a b c d : Nat) : List (Nat × List Nat × Nat) :=
  [(a, [b], c), (b, [c], d), (a, [b, c], d)]

/-- One 4-residue window of beta pass (b). -/
def beta_pass_b_window (CA_list : List Nat) (pc : PDB × Bool) (k : Nat) : PDB × Bool :=
  let a := CA_list.getD k 0
  let b := CA_list.getD (k + 1) 0
  let c := CA_list.getD (k + 2) 0
  let d := CA_list.getD (k + 3) 0
  if seqResid pc.1 [a, b, c, d] then
    (beta_window_patterns a b c d).foldl
      (fun pc t => pattern_demote "BETA" pc t.1 t.2.1 t.2.2) pc
  else pc

/-- Pass (b) of `process_beta_sheets` over `range(len(CA_list)-3)`. -/
def beta_pass_b (CA_list : List Nat) (pc : PDB × Bool) : PDB × Bool :=
  (List.range (CA_list.length - 3)).foldl (beta_pass_b_window CA_list) pc

/-- One sweep of the `while change` loop of `process_beta_sheets`. -/
def beta_sweep (CA_list : List Nat) (p : PDB) : PDB × Bool :=
  beta_pass_b CA_list (beta_pass_a CA_list (p, false))

/-- The beta `while change` loop with its sufficient sweep budget. -/
def beta_loop (CA_list : List Nat) : Nat → PDB → PDB
  | 0, p => p
  | fuel + 1, p =>
    match beta_sweep CA_list p with
    | (p2, true) => beta_loop CA_list fuel p2
    | (p2, false) => p2

/-- Source `process_beta_sheets`. -/
def process_beta_sheets (CA_list : List Nat) (p : PDB) : PDB :=
  beta_loop CA_list ((labelKeys p "BETA").card + 1) p

/-- Pointwise relation of a post-processing update: same atom index, and the
atom is unchanged or its structure label was demoted to OTHER. -/
def demotePair (x y : Nat × Atom) : Prop :=
  x.1 = y.1 ∧ (y.2 = x.2 ∨ y.2 = { x.2 with structure_ := "OTHER" })

/-- Post-processing only ever demotes labels to OTHER, atom by atom. -/
def DemoteOnly (p q : PDB) : Prop := List.Forall₂ demotePair p.all_atoms q.all_atoms

/-- The invariant of one post-processing update step for label `s`: only
demotions, the `s`-residue count does not grow, an unreported change does not
happen, and a first reported change strictly shrinks the `s`-residue count. -/
def GoodStep (s : String) (x y : PDB × Bool) : Prop :=
  DemoteOnly x.1 y.1
    ∧ (labelKeys y.1 s).card ≤ (labelKeys x.1 s).card
    ∧ (y.2 = false → y.1 = x.1 ∧ x.2 = false)
    ∧ (x.2 = false → y.2 = true → (labelKeys y.1 s).card < (labelKeys x.1 s).card)

/-- A lone ALPHA-labeled alpha carbon: pass (a) finds no partner and demotes
it, so the first sweep reports a change. -/
def alphaCAPDB : PDB := ⟨[(1, ⟨"CA", "ALA", "A", "C", 1, ⟨0, 0, 0⟩, "ALPHA", []⟩)], []⟩

/-! ## Theorems -/

theorem mem_ringDeleteStep (fst : List Nat) (d : List (List Nat)) (snd r : List Nat) :
    r ∈ ringDeleteStep fst d snd ↔ r ∈ d ∧ ¬ (r = snd ∧ DelCond fst snd) := by
  unfold ringDeleteStep DelCond
  by_cases h1 : fst = snd
  · simp [h1]
  · by_cases h2 : fst.toFinset ⊆ snd.toFinset
    · simp only [if_neg h1, if_pos h2, List.mem_filter]
      constructor
      · rintro ⟨hd, hne⟩
        refine ⟨hd, ?_⟩
        rintro ⟨rfl, -⟩
        simp at hne
      · rintro ⟨hd, hne⟩
        refine ⟨hd, ?_⟩
        simp only [decide_eq_true_eq]
        rintro rfl
        exact hne ⟨rfl, h1, h2⟩
    · simp only [if_neg h1, if_neg h2]
      constructor
      · intro hd; exact ⟨hd, by rintro ⟨rfl, -, hsub⟩; exact h2 hsub⟩
      · exact fun h => h.1

theorem mem_inner_loop (fst : List Nat) (l : List (List Nat)) :
    ∀ d r, r ∈ l.foldl (ringDeleteStep fst) d ↔ r ∈ d ∧ ¬ (r ∈ l ∧ DelCond fst r) := by
  induction l with
  | nil => intro d r; simp
  | cons s l ih =>
    intro d r
    rw [List.foldl_cons, ih, mem_ringDeleteStep]
    constructor
    · rintro ⟨⟨hd, h1⟩, h2⟩
      refine ⟨hd, ?_⟩
      rintro ⟨hm, hc⟩
      rcases List.mem_cons.mp hm with rfl | hm2
      · exact h1 ⟨rfl, hc⟩
      · exact h2 ⟨hm2, hc⟩
    · rintro ⟨hd, h⟩
      refine ⟨⟨hd, ?_⟩, ?_⟩
      · rintro ⟨rfl, hc⟩; exact h ⟨List.mem_cons_self _ _, hc⟩
      · rintro ⟨hm2, hc⟩; exact h ⟨List.mem_cons_of_mem _ hm2, hc⟩

theorem mem_outer_loop (full : List (List Nat)) :
    ∀ (iter : List (List Nat)) (d r),
      r ∈ iter.foldl (fun ring_dict fst => full.foldl (ringDeleteStep fst) ring_dict) d
        ↔ r ∈ d ∧ ¬ ∃ fst ∈ iter, r ∈ full ∧ DelCond fst r := by
  intro iter
  induction iter with
  | nil => intro d r; simp
  | cons f iter ih =>
    intro d r
    rw [List.foldl_cons, ih, mem_inner_loop]
    constructor
    · rintro ⟨⟨hd, h1⟩, h2⟩
      refine ⟨hd, ?_⟩
      rintro ⟨fst, hfst, hmem, hc⟩
      rcases List.mem_cons.mp hfst with rfl | hf2
      · exact h1 ⟨hmem, hc⟩
      · exact h2 ⟨fst, hf2, hmem, hc⟩
    · rintro ⟨hd, h⟩
      refine ⟨⟨hd, ?_⟩, ?_⟩
      · rintro ⟨hmem, hc⟩; exact h ⟨f, List.mem_cons_self _ _, hmem, hc⟩
      · rintro ⟨fst, hf2, hmem, hc⟩; exact h ⟨fst, List.mem_cons_of_mem _ hf2, hmem, hc⟩

/-- Characterization of `remove_redundant_rings`: a deduplicated candidate is
retained exactly when no other deduplicated candidate is a subset of it. -/
theorem mem_remove_redundant_rings (rings : List (List Nat)) (r : List Nat) :
    r ∈ remove_redundant_rings rings
      ↔ r ∈ dedup_rings rings ∧ ¬ ∃ fst ∈ dedup_rings rings, DelCond fst r := by
  unfold remove_redundant_rings
  rw [mem_outer_loop]
  constructor
  · rintro ⟨hd, h⟩
    exact ⟨hd, fun ⟨fst, hf, hc⟩ => h ⟨fst, hf, hd, hc⟩⟩
  · rintro ⟨hd, h⟩
    exact ⟨hd, fun ⟨fst, hf, _, hc⟩ => h ⟨fst, hf, hc⟩⟩

theorem mem_pyDedup (l : List (List Nat)) (x : List Nat) : x ∈ pyDedup l ↔ x ∈ l := by
  induction l with
  | nil => simp [pyDedup]
  | cons y l ih =>
    simp only [pyDedup, List.mem_cons]
    constructor
    · rintro (rfl | hm)
      · exact Or.inl rfl
      · exact Or.inr (ih.mp (List.mem_filter.mp hm).1)
    · rintro (rfl | hm)
      · exact Or.inl rfl
      · by_cases hxy : x = y
        · exact Or.inl hxy
        · exact Or.inr (List.mem_filter.mpr ⟨ih.mpr hm, by simpa using hxy⟩)

theorem mem_insertSorted (x a : Nat) (l : List Nat) :
    a ∈ insertSorted x l ↔ a = x ∨ a ∈ l := by
  induction l with
  | nil => simp [insertSorted]
  | cons y l ih =>
    unfold insertSorted
    by_cases h : x ≤ y
    · simp [h]
    · simp only [if_neg h, List.mem_cons, ih]
      tauto

theorem mem_pySorted (l : List Nat) (a : Nat) : a ∈ pySorted l ↔ a ∈ l := by
  induction l with
  | nil => simp [pySorted]
  | cons x l ih =>
    simp only [pySorted, List.foldr_cons] at *
    rw [mem_insertSorted, ih, List.mem_cons]

theorem pySorted_length (l : List Nat) : (pySorted l).length = l.length := by
  induction l with
  | nil => rfl
  | cons x l ih =>
    simp only [pySorted, List.foldr_cons] at *
    rw [insertSorted_length, ih, List.length_cons]
where
  insertSorted_length (x : Nat) (m : List Nat) :
      (insertSorted x m).length = m.length + 1 := by
    induction m with
    | nil => rfl
    | cons y m ih =>
      unfold insertSorted
      by_cases h : x ≤ y
      · simp [h]
      · simp [h, ih]

theorem pySorted_toFinset (l : List Nat) : (pySorted l).toFinset = l.toFinset := by
  ext a
  simp [List.mem_toFinset, mem_pySorted]

/-- Claim C3: in the output of the redundant-ring filter, no retained ring's atom
set is a proper superset of another retained ring's atom set, and no empty ring
is retained. -/
theorem remove_redundant_rings_no_proper_superset (rings : List (List Nat))
    (r s : List Nat) (hr : r ∈ remove_redundant_rings rings)
    (hs : s ∈ remove_redundant_rings rings) :
    ¬ s.toFinset ⊂ r.toFinset ∧ r ≠ [] := by
  obtain ⟨hrd, hno⟩ := (mem_remove_redundant_rings rings r).mp hr
  obtain ⟨hsd, -⟩ := (mem_remove_redundant_rings rings s).mp hs
  constructor
  · intro hss
    apply hno
    refine ⟨s, hsd, ?_, hss.1⟩
    intro hsr
    subst hsr
    exact (HasSubset.Subset.not_ssubset (le_refl s.toFinset)) hss
  · intro hre
    subst hre
    unfold dedup_rings at hrd
    rw [mem_pyDedup] at hrd
    obtain ⟨ring, hmem, hmap⟩ := List.mem_map.mp hrd
    have hlen := pySorted_length ring
    rw [hmap] at hlen
    have hne := (List.mem_filter.mp hmem).2
    simp only [decide_eq_true_eq] at hne
    rw [List.isEmpty_iff] at hne
    cases ring with
    | nil => exact hne rfl
    | cons a l => simp at hlen

/-- Claim C3 witness at a concrete candidate list. -/
theorem remove_redundant_rings_no_proper_superset_witness :
    ¬ ([1, 2] : List Nat).toFinset ⊂ ([1, 2] : List Nat).toFinset ∧ ([1, 2] : List Nat) ≠ [] :=
  remove_redundant_rings_no_proper_superset [[2, 1], [1, 2, 3], [], [1, 2]] [1, 2] [1, 2]
    (by decide) (by decide)

/-- Claim C4 counterexample: on the candidate list `[[1,2],[1,2,3]]` the subset
ring `[1,2]` is retained and the superset ring `[1,2,3]` is the one discarded,
contrary to "the subset ring is the one removed". -/
theorem remove_redundant_rings_subset_retained :
    remove_redundant_rings [[1, 2], [1, 2, 3]] = [[1, 2]]
      ∧ ([1, 2] : List Nat).toFinset ⊆ ([1, 2, 3] : List Nat).toFinset := by
  constructor
  · rfl
  · decide

/-- Claim C4 as amended: for distinct deduplicated candidate rings `R` and `S`,
if `S`'s atom set is a superset of `R`'s atom set then `S` — the superset ring —
is the one discarded from the output. -/
theorem remove_redundant_rings_discards_superset (rings : List (List Nat))
    (r s : List Nat) (hr : r ∈ dedup_rings rings) (hs : s ∈ dedup_rings rings)
    (hne : r ≠ s) (hsub : r.toFinset ⊆ s.toFinset) :
    s ∉ remove_redundant_rings rings := by
  intro hmem
  obtain ⟨-, hno⟩ := (mem_remove_redundant_rings rings s).mp hmem
  exact hno ⟨r, hr, hne, hsub⟩

/-- Claim C4 (amended) witness at a concrete candidate list. -/
theorem remove_redundant_rings_discards_superset_witness :
    ([1, 2, 3] : List Nat) ∉ remove_redundant_rings [[1, 2], [1, 2, 3]] :=
  remove_redundant_rings_discards_superset [[1, 2], [1, 2, 3]] [1, 2] [1, 2, 3]
    (by decide) (by decide) (by decide) (by decide)

theorem ringRecAux_succ (p : PDB) (fuel index : Nat) (already_crossed : List Nat) (orig : Nat) :
    ringRecAux p (fuel + 1) index already_crossed orig =
      if 6 < already_crossed.length then []
      else
        ((getAtom p index).indices_of_atoms_connecting.map (fun connected_atom =>
          (if connected_atom ∈ already_crossed then []
           else ringRecAux p fuel connected_atom (already_crossed ++ [index]) orig)
          ++ (if connected_atom = orig ∧ already_crossed.getLast? ≠ some orig
              then [already_crossed ++ [index]] else []))).flatten := rfl

/-- The defining recurrence of the source `ring_recursive`, budget eliminated. -/
theorem ring_recursive_eq (p : PDB) (index : Nat) (already_crossed : List Nat) (orig : Nat) :
    ring_recursive p index already_crossed orig =
      if 6 < already_crossed.length then []
      else
        ((getAtom p index).indices_of_atoms_connecting.map (fun connected_atom =>
          (if connected_atom ∈ already_crossed then []
           else ring_recursive p connected_atom (already_crossed ++ [index]) orig)
          ++ (if connected_atom = orig ∧ already_crossed.getLast? ≠ some orig
              then [already_crossed ++ [index]] else []))).flatten := by
  by_cases h : 6 < already_crossed.length
  · rw [if_pos h]
    unfold ring_recursive
    have h8 : 8 - already_crossed.length = 0 ∨ 8 - already_crossed.length = 1 := by omega
    rcases h8 with h0 | h1
    · rw [h0]; rfl
    · rw [h1, ringRecAux_succ, if_pos h]
  · rw [if_neg h]
    unfold ring_recursive
    obtain ⟨f, hf⟩ : ∃ f, 8 - already_crossed.length = f + 1 :=
      ⟨7 - already_crossed.length, by omega⟩
    rw [hf, ringRecAux_succ, if_neg h]
    congr 1
    apply List.map_congr_left
    intro c _
    congr 1
    by_cases hc : c ∈ already_crossed
    · simp [hc]
    · simp only [if_neg hc]
      have hf2 : f = 8 - (already_crossed ++ [index]).length := by
        simp only [List.length_append, List.length_cons, List.length_nil]
        omega
      rw [hf2]

theorem ringRec_complete (p : PDB) (orig : Nat) :
    ∀ (rest : List Nat) (index : Nat) (already : List Nat),
      already.head? = some orig →
      (already ++ index :: rest).Nodup →
      (already ++ index :: rest).length ≤ 7 →
      2 ≤ already.length + rest.length →
      chainAdj p (index :: rest) = true →
      orig ∈ (getAtom p ((index :: rest).getLastD 0)).indices_of_atoms_connecting →
      (already ++ index :: rest) ∈ ring_recursive p index already orig := by
  intro rest
  induction rest with
  | nil =>
    intro index already hhead hnodup hlen hsum hchain hclose
    have hlen6 : ¬ 6 < already.length := by
      simp only [List.length_append, List.length_cons, List.length_nil] at hlen
      omega
    rw [ring_recursive_eq, if_neg hlen6]
    rw [List.mem_flatten]
    simp only [List.getLastD_cons, List.getLastD_nil] at hclose
    refine ⟨_, List.mem_map_of_mem _ hclose, ?_⟩
    have hlast : already.getLast? ≠ some orig := by
      cases already with
      | nil => simp at hhead
      | cons o tl =>
        cases tl with
        | nil => simp at hsum
        | cons b tl2 =>
          have ho : o = orig := by simpa using hhead
          rw [List.getLast?_cons_cons]
          intro hmem
          have hm2 : orig ∈ b :: tl2 := List.mem_of_mem_getLast? hmem
          have hnd : (o :: b :: tl2).Nodup := (List.nodup_append.mp hnodup).1
          have hno : o ∉ b :: tl2 := (List.nodup_cons.mp hnd).1
          rw [ho] at hno
          exact hno hm2
    have hmem2 : already ++ [index] ∈
        (if orig = orig ∧ already.getLast? ≠ some orig
         then [already ++ [index]] else ([] : List (List Nat))) := by
      rw [if_pos ⟨rfl, hlast⟩]
      simp
    exact List.mem_append.mpr (Or.inr hmem2)
  | cons r rest ih =>
    intro index already hhead hnodup hlen hsum hchain hclose
    have hlen6 : ¬ 6 < already.length := by
      simp only [List.length_append, List.length_cons] at hlen
      omega
    rw [ring_recursive_eq, if_neg hlen6]
    rw [List.mem_flatten]
    have hchain2 : decide (r ∈ (getAtom p index).indices_of_atoms_connecting) = true
        ∧ chainAdj p (r :: rest) = true := by
      have := hchain
      unfold chainAdj at this
      exact Bool.and_eq_true_iff.mp this
    have hradj : r ∈ (getAtom p index).indices_of_atoms_connecting :=
      of_decide_eq_true hchain2.1
    refine ⟨_, List.mem_map_of_mem _ hradj, ?_⟩
    have hrnot : r ∉ already := by
      intro hc
      have hd := List.disjoint_of_nodup_append hnodup
      exact hd hc (by simp)
    rw [if_neg hrnot]
    apply List.mem_append.mpr
    left
    have hgoal := ih r (already ++ [index])
      (by cases already with
          | nil => simp at hhead
          | cons o tl => simpa using hhead)
      (by simpa [List.append_assoc] using hnodup)
      (by simpa [List.append_assoc] using hlen)
      (by simp only [List.length_append, List.length_cons, List.length_nil]
          simp only [List.length_cons] at hsum
          omega)
      hchain2.2
      (by simpa [List.getLastD_cons] using hclose)
    simpa [List.append_assoc] using hgoal

/-- Claim C2: every simple cycle of length at most 6 through an atom, written as
the walk path starting at that atom, is recorded by the per-atom depth-first
cycle search; and any call whose carried path exceeds length 6 is abandoned,
recording nothing. -/
theorem cycle_search_records_short_cycles (p : PDB) (a : Nat) (c : List Nat)
    (hhead : c.head? = some a) (hlen3 : 3 ≤ c.length) (hlen6 : c.length ≤ 6)
    (hnodup : c.Nodup) (hchain : chainAdj p c = true)
    (hclose : a ∈ (getAtom p (c.getLastD 0)).indices_of_atoms_connecting) :
    c ∈ all_rings_containing_atom p a
      ∧ ∀ (index : Nat) (already_crossed : List Nat) (orig : Nat),
          6 < already_crossed.length → ring_recursive p index already_crossed orig = [] := by
  constructor
  · obtain ⟨v, t, rfl⟩ : ∃ v t, c = a :: v :: t := by
      cases c with
      | nil => simp at hhead
      | cons x t0 =>
        have hx : x = a := by simpa using hhead
        subst hx
        cases t0 with
        | nil => simp at hlen3
        | cons v t => exact ⟨v, t, rfl⟩
    have hchain2 : decide (v ∈ (getAtom p a).indices_of_atoms_connecting) = true
        ∧ chainAdj p (v :: t) = true := by
      have := hchain
      unfold chainAdj at this
      exact Bool.and_eq_true_iff.mp this
    have hvadj : v ∈ (getAtom p a).indices_of_atoms_connecting :=
      of_decide_eq_true hchain2.1
    unfold all_rings_containing_atom
    rw [List.mem_flatMap]
    refine ⟨v, hvadj, ?_⟩
    have hgoal := ringRec_complete p a t v [a]
      (by simp)
      (by simpa using hnodup)
      (by simp only [List.singleton_append, List.length_cons] at *
          omega)
      (by simp only [List.length_cons, List.length_nil]
          simp only [List.length_cons] at hlen3
          omega)
      hchain2.2
      (by simpa [List.getLastD_cons] using hclose)
    simpa using hgoal
  · intro index already_crossed orig h
    rw [ring_recursive_eq, if_pos h]

/-- Claim C2 witness: the triangle 1-2-3 is recorded by the search started at
atom 1, and an over-long carried path is abandoned. -/
theorem cycle_search_records_short_cycles_witness :
    [1, 2, 3] ∈ all_rings_containing_atom triPDB 1 :=
  (cycle_search_records_short_cycles triPDB 1 [1, 2, 3] (by decide) (by decide) (by decide)
    (by decide) (by decide) (by decide)).1

/-- The `is_flat` accumulator can only ever hold `none` or `some false`, so
`ring_is_flat` never returns `True`: every flat ring ends in the unbound read. -/
theorem ring_is_flat_ne_some_true (dd : Dihedral) (p : PDB) (ring : List Nat) :
    ring_is_flat dd p ring ≠ some true := by
  unfold ring_is_flat
  have key : ∀ (ts : List Int) (st : Option Bool), st ≠ some true →
      ring_is_flat_loop dd p ring ts st ≠ some true := by
    intro ts
    induction ts with
    | nil => intro st hst; exact hst
    | cons t ts ih =>
      intro st hst
      unfold ring_is_flat_loop
      by_cases h1 : (getAtomNP p (pyGet ring (t + 3))).element = "C"
          ∧ (getAtomNP p (pyGet ring (t + 3))).indices_of_atoms_connecting.length = 4
      · simp only [if_pos h1]
        intro hc
        cases hc
      · rw [if_neg h1]
        by_cases h2 : bad_dihedral (dd (getAtomNP p (pyGet ring t)).coordinates
            (getAtomNP p (pyGet ring (t + 1))).coordinates
            (getAtomNP p (pyGet ring (t + 2))).coordinates
            (getAtomNP p (pyGet ring (t + 3))).coordinates) = true
        · simp only [h2, if_true]
          intro hc
          cases hc
        · simp only [h2, Bool.false_eq_true, if_false]
          by_cases h3 : (getAtomNP p (pyGet ring (t + 3))).indices_of_atoms_connecting.any
              (fun substituent_atom_index =>
                bad_dihedral (dd (getAtomNP p (pyGet ring (t + 1))).coordinates
                  (getAtomNP p (pyGet ring (t + 2))).coordinates
                  (getAtomNP p (pyGet ring (t + 3))).coordinates
                  (getAtomNP p substituent_atom_index).coordinates)) = true
          · simp only [h3, if_true]
            exact ih (some false) (by simp)
          · simp only [h3, Bool.false_eq_true, if_false]
            exact ih st hst
  exact key _ none (by simp)

/-- Claim C1 (code bug): on a six-membered planar non-protein carbocycle with
every dihedral equal to 0 degrees, the surviving candidate ring reaches
`ring_is_flat`, whose local `is_flat` is never assigned because the
`is_flat = True` initializer is commented out, so the Python source raises
`UnboundLocalError` instead of producing the aromatic marker the spec
describes. -/
theorem flat_hexagon_assignment_raises :
    ring_is_flat dd0 hexPDB [1, 2, 3, 4, 5, 6] = none
      ∧ assign_non_protein_aromatic_rings dd0 hexPDB = none := by
  constructor
  · decide
  · decide

theorem optList_mem {α : Type} (xs : List (Option α)) (ys : List α) (y : α)
    (h : optList xs = some ys) (hy : y ∈ ys) : ∃ x ∈ xs, x = some y := by
  induction xs generalizing ys with
  | nil =>
    unfold optList at h
    cases h
    simp at hy
  | cons x xs ih =>
    cases x with
    | none => simp [optList] at h
    | some a =>
      unfold optList at h
      cases hol : optList xs with
      | none => rw [hol] at h; simp at h
      | some l =>
        rw [hol] at h
        simp only [Option.map_some', Option.some.injEq] at h
        subst h
        rcases List.mem_cons.mp hy with rfl | hmem
        · exact ⟨some y, by simp, rfl⟩
        · obtain ⟨x, hx, hxe⟩ := ih l hol hmem
          exact ⟨x, List.mem_cons_of_mem _ hx, hxe⟩

theorem get_aromatic_marker_indices (p : PDB) (r : List Nat) (m : AromaticRing)
    (h : get_aromatic_marker p r = some m) : m.indices = r := by
  unfold get_aromatic_marker at h
  by_cases hl : r.length < 3
  · rw [if_pos hl] at h; cases h
  · rw [if_neg hl] at h
    simp only [Option.some.injEq] at h
    rw [← h]

theorem foldl_mem_preserve {α β : Type} (P : β → Prop) (step : List β → α → List β)
    (hstep : ∀ acc x m, m ∈ step acc x → m ∈ acc ∨ P m) :
    ∀ (l : List α) (acc : List β), (∀ m ∈ acc, P m) → ∀ m ∈ l.foldl step acc, P m := by
  intro l
  induction l with
  | nil => intro acc hacc m hm; exact hacc m hm
  | cons x l ih =>
    intro acc hacc m hm
    refine ih (step acc x) ?_ m hm
    intro m2 hm2
    rcases hstep acc x m2 hm2 with h | h
    · exact hacc m2 h
    · exact h

theorem get_residue_aromatics_min_size (p : PDB)
    (residues : List ((String × Int × String) × List Nat))
    (accept : String → Bool) (names : List String) :
    ∀ m ∈ get_residue_aromatics p residues accept names, 3 ≤ m.indices.length := by
  unfold get_residue_aromatics
  refine foldl_mem_preserve _ _ ?_ residues [] (by simp)
  intro acc kv m hm
  by_cases hacc : accept kv.1.1 = true
  · rw [if_pos hacc] at hm
    by_cases hlen : (kv.2.filter (fun index =>
        decide (pyStrip (getAtom p index).atomname ∈ names))).length < 3
    · rw [if_pos hlen] at hm
      exact Or.inl hm
    · rw [if_neg hlen] at hm
      cases hmark : get_aromatic_marker p (kv.2.filter (fun index =>
          decide (pyStrip (getAtom p index).atomname ∈ names))) with
      | none => rw [hmark] at hm; exact Or.inl hm
      | some m0 =>
        rw [hmark] at hm
        rcases List.mem_append.mp hm with h | h
        · exact Or.inl h
        · right
          have hms : m = m0 := by simpa using h
          subst hms
          have := get_aromatic_marker_indices p _ m hmark
          rw [this]
          omega
  · rw [if_neg hacc] at hm
    exact Or.inl hm

/-- Claim C5 counterexample: a PHE residue with only `CG`, `CD1`, `CD2` resolved
yields, after both ring assignments, exactly one aromatic marker, and it has 3
members — not 5 or 6. -/
theorem protein_marker_with_three_members :
    (assign_protein_aromatic_rings phePDB).map (fun m => m.indices.length) = [3]
      ∧ assign_non_protein_aromatic_rings dd0 phePDB = some [] := by
  constructor
  · decide
  · decide

/-- Claim C5 as amended: every marker produced by the non-protein ring
assignment (when it completes without error) has exactly 5 or 6 members, and
every marker produced by the protein residue ring assignment has at least 3
members (possibly fewer than 5 when residue atoms are missing). -/
theorem aromatic_marker_member_counts (dd : Dihedral) (p : PDB) :
    (∀ l, assign_non_protein_aromatic_rings dd p = some l →
        ∀ m ∈ l, m.indices.length = 5 ∨ m.indices.length = 6)
      ∧ ∀ n ∈ (assign_protein_aromatic_rings p).map (fun m => m.indices.length), 3 ≤ n := by
  constructor
  · intro l h m hm
    unfold assign_non_protein_aromatic_rings at h
    simp only [Option.bind_eq_some] at h
    obtain ⟨flagged, h1, h2⟩ := h
    obtain ⟨x, hx, hxe⟩ := optList_mem _ _ _ h2 hm
    obtain ⟨ring, hring, hmrk⟩ := List.mem_map.mp hx
    rw [hxe] at hmrk
    have hind := get_aromatic_marker_indices p ring m hmrk
    obtain ⟨rb, hrb, hrb1⟩ := List.mem_map.mp hring
    have hrbf : rb ∈ flagged := (List.mem_filter.mp hrb).1
    obtain ⟨x2, hx2, hx2e⟩ := optList_mem _ _ _ h1 hrbf
    obtain ⟨r2, hr2, hr2e⟩ := List.mem_map.mp hx2
    have hr2f := (List.mem_filter.mp hr2).2
    have hr1 : rb.1 = r2 := by
      rw [hx2e] at hr2e
      cases hflat : ring_is_flat dd p r2 with
      | none => rw [hflat] at hr2e; cases hr2e
      | some b =>
        rw [hflat] at hr2e
        simp only [Option.map_some', Option.some.injEq] at hr2e
        rw [← hr2e]
    rw [hind, ← hrb1, hr1]
    simpa using hr2f
  · intro n hn
    obtain ⟨m, hm, rfl⟩ := List.mem_map.mp hn
    unfold assign_protein_aromatic_rings at hm
    rcases List.mem_append.mp hm with hm | hm
    rcases List.mem_append.mp hm with hm | hm
    rcases List.mem_append.mp hm with hm | hm
    · exact get_residue_aromatics_min_size _ _ _ _ m hm
    · exact get_residue_aromatics_min_size _ _ _ _ m hm
    · exact get_residue_aromatics_min_size _ _ _ _ m hm
    · unfold get_tryptophan_aromatics at hm
      rcases List.mem_append.mp hm with hm | hm
      · exact get_residue_aromatics_min_size _ _ _ _ m hm
      · exact get_residue_aromatics_min_size _ _ _ _ m hm

/-- Claim C5 (amended) witness: the three-membered PHE marker of `phePDB`
satisfies the protein-side lower bound. -/
theorem aromatic_marker_member_counts_witness : (3 : Nat) ≤ 3 :=
  (aromatic_marker_member_counts dd0 phePDB).2 3 (by decide)

theorem mem_connected_element (p : PDB) (j k : Nat) (e : String)
    (h : k ∈ connected_atoms_of_given_element p j e) : (getAtom p k).element = e := by
  unfold connected_atoms_of_given_element at h
  have := (List.mem_filter.mp h).2
  simpa using this

theorem ntu_fold_subset (p : PDB) (l : List Nat) :
    ∀ (init : List Nat × List Nat),
      ∀ x ∈ (l.foldl (fun st atmindex =>
          if (connected_heavy_atoms p atmindex).length = 1 then
            (st.1 ++ [atmindex], st.2.erase atmindex) else st) init).1,
        x ∈ init.1 ∨ x ∈ l := by
  induction l with
  | nil => intro init x hx; exact Or.inl hx
  | cons a l ih =>
    intro init x hx
    rw [List.foldl_cons] at hx
    rcases ih _ x hx with h | h
    · by_cases hc : (connected_heavy_atoms p a).length = 1
      · rw [if_pos hc] at h
        rcases List.mem_append.mp h with h | h
        · exact Or.inl h
        · right
          simp only [List.mem_singleton] at h
          simp [h]
      · rw [if_neg hc] at h
        exact Or.inl h
    · exact Or.inr (List.mem_cons_of_mem _ h)

/-- Every member of a carbon-group charge record is the carbon itself, or a
nitrogen, hydrogen, or oxygen by element lookup. -/
theorem carbon_charges_for_member_shape (p : PDB) (j : Nat) (b : Atom) :
    ∀ ch ∈ carbon_charges_for p j b, ∀ x ∈ ch.indices,
      x = j ∨ (getAtom p x).element = "N" ∨ (getAtom p x).element = "H"
        ∨ (getAtom p x).element = "O" := by
  intro ch hch x hx
  unfold carbon_charges_for at hch
  rcases List.mem_append.mp hch with h1 | h2
  · by_cases hg : b.element = "C" ∧ b.indices_of_atoms_connecting.length = 3
    case neg => rw [if_neg hg] at h1; cases h1
    rw [if_pos hg] at h1
    by_cases hn : 2 ≤ (connected_atoms_of_given_element p j "N").length
    case neg => rw [if_neg hn] at h1; cases h1
    rw [if_pos hn] at h1
    set s := (connected_atoms_of_given_element p j "N").foldl
      (fun (st : List Nat × List Nat) atmindex =>
        if (connected_heavy_atoms p atmindex).length = 1 then
          (st.1 ++ [atmindex], st.2.erase atmindex) else st)
      ([], b.indices_of_atoms_connecting) with hs
    have hsub : ∀ y ∈ s.1, (getAtom p y).element = "N" := by
      intro y hy
      rcases ntu_fold_subset p _ _ y hy with h | h
      · cases h
      · exact mem_connected_element p j y "N" h
    by_cases h3 : s.1.length = 3 ∧ s.2.head? = none
    · rw [if_pos h3] at h1
      simp only [List.mem_singleton] at h1
      subst h1
      simp only [List.mem_singleton] at hx
      exact Or.inl hx
    · rw [if_neg h3] at h1
      by_cases h2c : s.1.length = 2 ∧ s.2.head? ≠ none
      case neg => rw [if_neg h2c] at h1; cases h1
      rw [if_pos h2c] at h1
      by_cases hsp3 : ((getAtom p (s.2.head?.getD 0)).element = "C"
            ∧ (getAtom p (s.2.head?.getD 0)).indices_of_atoms_connecting.length = 4)
          ∨ ((getAtom p (s.2.head?.getD 0)).element = "O"
            ∧ (getAtom p (s.2.head?.getD 0)).indices_of_atoms_connecting.length = 2)
          ∨ (getAtom p (s.2.head?.getD 0)).element = "N"
          ∨ (getAtom p (s.2.head?.getD 0)).element = "S"
          ∨ (getAtom p (s.2.head?.getD 0)).element = "P"
      case neg => rw [if_neg hsp3] at h1; cases h1
      rw [if_pos hsp3] at h1
      simp only [List.mem_singleton] at h1
      subst h1
      simp only [List.append_assoc, List.mem_append, List.mem_singleton] at hx
      rcases hx with rfl | hx | hx | hx
      · exact Or.inl rfl
      · exact Or.inr (Or.inl (hsub x hx))
      · exact Or.inr (Or.inr (Or.inl (mem_connected_element p _ x "H" hx)))
      · exact Or.inr (Or.inr (Or.inl (mem_connected_element p _ x "H" hx)))
  · by_cases hc : b.element = "C"
    case neg => rw [if_neg hc] at h2; cases h2
    rw [if_pos hc] at h2
    by_cases hn3 : b.indices_of_atoms_connecting.length = 3
    case neg => rw [if_neg hn3] at h2; cases h2
    rw [if_pos hn3] at h2
    by_cases ho2 : (connected_atoms_of_given_element p j "O").length = 2
    case neg => rw [if_neg ho2] at h2; cases h2
    rw [if_pos ho2] at h2
    by_cases hh : (connected_heavy_atoms p
          ((connected_atoms_of_given_element p j "O").getD 0 0)).length = 1
        ∧ (connected_heavy_atoms p
          ((connected_atoms_of_given_element p j "O").getD 1 0)).length = 1
    case neg => rw [if_neg hh] at h2; cases h2
    rw [if_pos hh] at h2
    simp only [List.mem_singleton] at h2
    subst h2
    obtain ⟨u, v, huv⟩ := List.length_eq_two.mp ho2
    simp only [huv, List.getD] at hx
    simp only [List.mem_cons, List.mem_singleton] at hx
    have hu : (getAtom p u).element = "O" :=
      mem_connected_element p j u "O" (by rw [huv]; simp)
    have hv : (getAtom p v).element = "O" :=
      mem_connected_element p j v "O" (by rw [huv]; simp)
    rcases hx with rfl | rfl | hx
    · simp only [huv] at hu ⊢
      exact Or.inr (Or.inr (Or.inr (by simpa using hu)))
    · exact Or.inl rfl
    · simp only [huv] at hv ⊢
      rcases hx with rfl | hx
      · exact Or.inr (Or.inr (Or.inr (by simpa using hv)))
      · cases hx

theorem filter_flatMap_single (l : List (Nat × Atom)) (f : Nat × Atom → List Charged)
    (q : Charged → Bool) (i : Nat) (a : Atom) (rec : Charged)
    (hmem : (i, a) ∈ l) (hnodup : (l.map Prod.fst).Nodup)
    (hothers : ∀ jb ∈ l, jb.1 ≠ i → ∀ ch ∈ f jb, q ch = false)
    (hself : (f (i, a)).filter q = [rec]) :
    (l.flatMap f).filter q = [rec] := by
  induction l with
  | nil => cases hmem
  | cons jb l ih =>
    rw [List.flatMap_cons, List.filter_append]
    have hnd := hnodup
    rw [List.map_cons, List.nodup_cons] at hnd
    by_cases hji : jb.1 = i
    · have hjba : jb = (i, a) := by
        rcases List.mem_cons.mp hmem with h | h
        · exact h.symm
        · exact absurd (hji ▸ List.mem_map_of_mem Prod.fst h) hnd.1
      rw [hjba, hself]
      have hrest : (l.flatMap f).filter q = [] := by
        rw [List.filter_eq_nil_iff]
        intro ch hch
        obtain ⟨kb, hkb, hchf⟩ := List.mem_flatMap.mp hch
        have hk : kb.1 ≠ i := by
          intro he
          exact hnd.1 (hji ▸ he ▸ List.mem_map_of_mem Prod.fst hkb)
        simp [hothers kb (List.mem_cons_of_mem _ hkb) hk ch hchf]
      rw [hrest]
      simp
    · have h0 : (f jb).filter q = [] := by
        rw [List.filter_eq_nil_iff]
        intro ch hch
        simp [hothers jb (List.mem_cons_self _ _) hji ch hch]
      rw [h0]
      have hmem2 : (i, a) ∈ l := by
        rcases List.mem_cons.mp hmem with h | h
        · exact absurd (by rw [← h]) hji
        · exact h
      rw [List.nil_append]
      exact ih hmem2 (by simpa using hnd.2)
        (fun jb2 h2 => hothers jb2 (List.mem_cons_of_mem _ h2))

theorem filter_disjoint_length (l : List Nat) (f g : Nat → Bool)
    (h : ∀ x ∈ l, ¬ (f x = true ∧ g x = true)) :
    (l.filter f).length + (l.filter g).length ≤ l.length := by
  induction l with
  | nil => simp
  | cons a l ih =>
    have ih2 := ih (fun x hx => h x (List.mem_cons_of_mem _ hx))
    by_cases hf : f a = true
    · have hg : ¬ g a = true := fun hg => h a (List.mem_cons_self _ _) ⟨hf, hg⟩
      simp only [List.filter_cons, hf, if_true, hg, if_false, List.length_cons,
        List.length_cons]
      simp only [hg, Bool.false_eq_true, if_false] at *
      omega
    · by_cases hg : g a = true
      · simp only [List.filter_cons, hf, Bool.false_eq_true, if_false, hg, if_true,
          List.length_cons]
        omega
      · simp only [List.filter_cons, hf, hg, Bool.false_eq_true, if_false, List.length_cons]
        omega

/-- Claim C6: a non-protein 3-neighbor carbon bonded to exactly two oxygens,
each with exactly one heavy-atom neighbor, yields exactly one Charged record
containing that carbon across the whole carbon-group detector output: negative,
anchored at the oxygen-pair average, with member list `[O1, C, O2]`. -/
theorem carboxylate_rule (p : PDB) (i o1 o2 : Nat) (a : Atom)
    (hlook : p.all_atoms.lookup i = some a)
    (hmem : (i, a) ∈ p.non_protein_atoms)
    (hnodup : (p.non_protein_atoms.map Prod.fst).Nodup)
    (helem : a.element = "C")
    (hnbrs : a.indices_of_atoms_connecting.length = 3)
    (hoxy : connected_atoms_of_given_element p i "O" = [o1, o2])
    (hh1 : (connected_heavy_atoms p o1).length = 1)
    (hh2 : (connected_heavy_atoms p o2).length = 1) :
    (identify_carbon_group_charges p).filter (fun ch => decide (i ∈ ch.indices))
      = [⟨average_point [(getAtom p o1).coordinates, (getAtom p o2).coordinates],
          [o1, i, o2], false⟩] := by
  have hga : getAtom p i = a := by unfold getAtom; rw [hlook]; rfl
  have hNfilter : connected_atoms_of_given_element p i "N"
      = a.indices_of_atoms_connecting.filter
          (fun c => decide ((getAtom p c).element = "N")) := by
    unfold connected_atoms_of_given_element
    rw [hga]
  have hOfilter : connected_atoms_of_given_element p i "O"
      = a.indices_of_atoms_connecting.filter
          (fun c => decide ((getAtom p c).element = "O")) := by
    unfold connected_atoms_of_given_element
    rw [hga]
  have hnle : ¬ 2 ≤ (connected_atoms_of_given_element p i "N").length := by
    have hdisj := filter_disjoint_length a.indices_of_atoms_connecting
      (fun c => decide ((getAtom p c).element = "N"))
      (fun c => decide ((getAtom p c).element = "O"))
      (fun x _ hx => by
        have h1 := of_decide_eq_true hx.1
        have h2 := of_decide_eq_true hx.2
        rw [h1] at h2
        simp at h2)
    have hOlen : (connected_atoms_of_given_element p i "O").length = 2 := by
      rw [hoxy]
      rfl
    rw [hOfilter] at hOlen
    rw [hNfilter]
    omega
  have hself : carbon_charges_for p i a
      = [⟨average_point [(getAtom p o1).coordinates, (getAtom p o2).coordinates],
          [o1, i, o2], false⟩] := by
    unfold carbon_charges_for
    rw [if_pos ⟨helem, hnbrs⟩, if_neg hnle, if_pos helem, if_pos hnbrs, hoxy]
    simp only [List.length_cons, List.length_nil, List.getD_cons_zero,
      List.getD_cons_succ, List.map_cons, List.map_nil]
    simp only [if_true]
    rw [if_pos ⟨hh1, hh2⟩]
    rfl
  refine filter_flatMap_single p.non_protein_atoms _ _ i a _ hmem hnodup ?_ ?_
  · intro jb hjb hji ch hch
    apply decide_eq_false
    intro hix
    rcases carbon_charges_for_member_shape p jb.1 jb.2 ch hch i hix with h | h | h | h
    · exact hji h.symm
    · rw [hga, helem] at h; simp at h
    · rw [hga, helem] at h; simp at h
    · rw [hga, helem] at h; simp at h
  · rw [hself]
    have : decide (i ∈ [o1, i, o2]) = true := by simp
    simp [List.filter_cons, this]

/-- Claim C6 witness: the concrete carboxylate yields its single negative
record. -/
theorem carboxylate_rule_witness :
    (identify_carbon_group_charges carboxPDB).filter (fun ch => decide (1 ∈ ch.indices))
      = [⟨average_point [(getAtom carboxPDB 2).coordinates, (getAtom carboxPDB 3).coordinates],
          [2, 1, 3], false⟩] :=
  carboxylate_rule carboxPDB 1 2 3 (getAtom carboxPDB 1) (by decide) (by decide) (by decide)
    (by decide) (by decide) (by decide) (by decide) (by decide)

theorem foldl_append_mem {α β : Type} (g : α → List β) (l : List α) :
    ∀ (acc : List β) (x : β),
      x ∈ l.foldl (fun acc kv => acc ++ g kv) acc ↔ x ∈ acc ∨ ∃ kv ∈ l, x ∈ g kv := by
  induction l with
  | nil => intro acc x; simp
  | cons kv l ih =>
    intro acc x
    rw [List.foldl_cons, ih]
    constructor
    · rintro (h | ⟨kv2, h2, h3⟩)
      · rcases List.mem_append.mp h with h | h
        · exact Or.inl h
        · exact Or.inr ⟨kv, List.mem_cons_self _ _, h⟩
      · exact Or.inr ⟨kv2, List.mem_cons_of_mem _ h2, h3⟩
    · rintro (h | ⟨kv2, h2, h3⟩)
      · exact Or.inl (List.mem_append.mpr (Or.inl h))
      · rcases List.mem_cons.mp h2 with rfl | h2
        · exact Or.inl (List.mem_append.mpr (Or.inr h3))
        · exact Or.inr ⟨kv2, h2, h3⟩

/-- Claim C7 as amended: a residue contributes a Charged record precisely when
its name is accepted, the COUNT of its atoms carrying anchor names equals the
number of anchor names (with distinct atom names this is "all anchor names
present"), and the averaged anchor point has nonzero magnitude; otherwise the
residue is silently skipped and no error is raised. -/
theorem residue_charge_iff (p : PDB) (residues : List ((String × Int × String) × List Nat))
    (resnames atomnames charged_atomnames : List String) (positive : Bool) (ch : Charged) :
    ch ∈ get_residue_charges p residues resnames atomnames charged_atomnames positive
      ↔ ∃ kv ∈ residues,
          kv.1.1.takeRight 3 ∈ resnames
          ∧ (residue_charged_atoms p charged_atomnames kv.2).length
              = charged_atomnames.length
          ∧ magnitudeSq (average_point
              ((residue_charged_atoms p charged_atomnames kv.2).map Atom.coordinates)) ≠ 0
          ∧ ch = ⟨average_point
                ((residue_charged_atoms p charged_atomnames kv.2).map Atom.coordinates),
              residue_charge_group p atomnames kv.2, positive⟩ := by
  unfold get_residue_charges
  rw [foldl_append_mem]
  simp only [List.not_mem_nil, false_or]
  constructor
  · rintro ⟨kv, hkv, hch⟩
    refine ⟨kv, hkv, ?_⟩
    unfold residue_contribution at hch
    by_cases h1 : kv.1.1.takeRight 3 ∈ resnames
    case neg => rw [if_neg h1] at hch; cases hch
    rw [if_pos h1] at hch
    by_cases h2 : (residue_charged_atoms p charged_atomnames kv.2).length
        = charged_atomnames.length
    case neg => rw [if_neg h2] at hch; cases hch
    rw [if_pos h2] at hch
    by_cases h3 : magnitudeSq (average_point
        ((residue_charged_atoms p charged_atomnames kv.2).map Atom.coordinates)) ≠ 0
    case neg => rw [if_neg h3] at hch; cases hch
    rw [if_pos h3] at hch
    exact ⟨h1, h2, h3, by simpa using hch⟩
  · rintro ⟨kv, hkv, h1, h2, h3, rfl⟩
    refine ⟨kv, hkv, ?_⟩
    unfold residue_contribution
    rw [if_pos h1, if_pos h2, if_pos h3]
    simp

/-- Claim C7 counterexample: in `dupPDB` both anchor names NH1 and NH2 are
present in the residue and the averaged anchor point is nonzero (squared
magnitude 4), yet the arginine rule contributes nothing, because the source
tests `len(charged_atoms) == len(charged_atomnames)` (3 vs 2), not "all anchor
names present". -/
theorem residue_charge_allpresent_but_skipped :
    pyStrip (getAtom dupPDB 1).atomname = "NH1"
      ∧ pyStrip (getAtom dupPDB 3).atomname = "NH2"
      ∧ magnitudeSq (average_point
          ((residue_charged_atoms dupPDB ["NH1", "NH2"] [1, 2, 3]).map Atom.coordinates)) = 4
      ∧ get_arginine_charges dupPDB (get_residues dupPDB) = [] := by
  have hlist : residue_charged_atoms dupPDB ["NH1", "NH2"] [1, 2, 3]
      = [⟨"NH1", "ARG", "A", "N", 1, ⟨1, 0, 0⟩, "", []⟩,
         ⟨"NH1", "ARG", "A", "N", 1, ⟨2, 0, 0⟩, "", []⟩,
         ⟨"NH2", "ARG", "A", "N", 1, ⟨3, 0, 0⟩, "", []⟩] := by decide
  refine ⟨by decide, by decide, ?_, by decide⟩
  rw [hlist]
  simp only [List.map_cons, List.map_nil, average_point, magnitudeSq, List.sum_cons,
    List.sum_nil, List.length_cons, List.length_nil]
  norm_num

theorem residue_charge_iff_witness :
    (⟨⟨2, 0, 0⟩, [1, 3], true⟩ : Charged)
      ∈ get_residue_charges argPDB (get_residues argPDB) ["ARG"]
          ["NH1", "NH2", "2HH2", "HN22", "1HH2", "HN12", "CZ", "2HH1", "HN21", "1HH1", "HN11"]
          ["NH1", "NH2"] true := by
  have hlist : residue_charged_atoms argPDB ["NH1", "NH2"] [1, 3]
      = [⟨"NH1", "ARG", "A", "N", 1, ⟨1, 0, 0⟩, "", []⟩,
         ⟨"NH2", "ARG", "A", "N", 1, ⟨3, 0, 0⟩, "", []⟩] := by decide
  have havg : average_point ((residue_charged_atoms argPDB ["NH1", "NH2"] [1, 3]).map
      Atom.coordinates) = ⟨2, 0, 0⟩ := by
    rw [hlist]
    simp only [List.map_cons, List.map_nil, average_point, List.sum_cons, List.sum_nil,
      List.length_cons, List.length_nil, Point.mk.injEq]
    norm_num
  apply (residue_charge_iff argPDB (get_residues argPDB) _ _ _ _ _).mpr
  refine ⟨(("ARG", 1, "A"), [1, 3]), by decide, by decide, by decide, ?_, ?_⟩
  · rw [havg]
    simp only [magnitudeSq]
    norm_num
  · rw [havg]
    have hgrp : residue_charge_group argPDB
        ["NH1", "NH2", "2HH2", "HN22", "1HH2", "HN12", "CZ", "2HH1", "HN21", "1HH1", "HN11"]
        [1, 3] = [1, 3] := by decide
    rw [hgrp]

theorem lookup_cons_self (a v : String) (l : List (String × String)) :
    ((a, v) :: l).lookup a = some v := by
  simp [List.lookup]

theorem lookup_cons_ne (a k v : String) (l : List (String × String)) (h : k ≠ a) :
    ((a, v) :: l).lookup k = l.lookup k := by
  have hb : (k == a) = false := beq_eq_false_iff_ne.mpr h
  simp [List.lookup, hb]

theorem lookup_dictSet_self (d : List (String × String)) (k v : String) :
    (dictSet d k v).lookup k = some v := by
  unfold dictSet
  by_cases h : d.any (fun e => decide (e.1 = k)) = true
  · rw [if_pos h]
    induction d with
    | nil => simp at h
    | cons e d ih =>
      obtain ⟨a, b⟩ := e
      simp only [List.any_cons, Bool.or_eq_true, decide_eq_true_eq] at h
      by_cases he : a = k
      · rw [List.map_cons]
        simp only [he, if_true, if_pos rfl]
        exact lookup_cons_self k v _
      · rw [List.map_cons]
        have he2 : (a, b).1 = k ↔ False := by simp [he]
        simp only [if_neg (by simpa using he)]
        rw [lookup_cons_ne a k b _ (fun hc => he hc.symm)]
        apply ih
        rcases h with h | h
        · exact absurd h he
        · exact h
  · rw [if_neg h]
    induction d with
    | nil => exact lookup_cons_self k v []
    | cons e d ih =>
      obtain ⟨a, b⟩ := e
      simp only [List.any_cons, Bool.or_eq_true, decide_eq_true_eq] at h
      push_neg at h
      rw [List.cons_append, lookup_cons_ne a k b _ (fun hc => h.1 hc.symm)]
      exact ih h.2

theorem lookup_map_update_ne (d : List (String × String)) (k k2 v : String) (h : k2 ≠ k) :
    (d.map (fun e => if e.1 = k then (k, v) else e)).lookup k2 = d.lookup k2 := by
  induction d with
  | nil => rfl
  | cons e d ih =>
    obtain ⟨a, b⟩ := e
    rw [List.map_cons]
    by_cases he : a = k
    · rw [if_pos (show (a, b).1 = k from he)]
      rw [lookup_cons_ne k k2 v _ h, lookup_cons_ne a k2 b _ (by rw [he]; exact h), ih]
    · rw [if_neg (show ¬ (a, b).1 = k from he)]
      by_cases hk : k2 = a
      · subst hk
        rw [lookup_cons_self, lookup_cons_self]
      · rw [lookup_cons_ne a k2 b _ hk, lookup_cons_ne a k2 b _ hk, ih]

theorem lookup_append_single_ne (d : List (String × String)) (k k2 v : String) (h : k2 ≠ k) :
    (d ++ [(k, v)]).lookup k2 = d.lookup k2 := by
  induction d with
  | nil => simpa using lookup_cons_ne k k2 v [] h
  | cons e d ih =>
    obtain ⟨a, b⟩ := e
    rw [List.cons_append]
    by_cases hk : k2 = a
    · subst hk
      rw [lookup_cons_self, lookup_cons_self]
    · rw [lookup_cons_ne a k2 b _ hk, lookup_cons_ne a k2 b _ hk, ih]

theorem lookup_dictSet_ne (d : List (String × String)) (k k2 v : String) (h : k2 ≠ k) :
    (dictSet d k v).lookup k2 = d.lookup k2 := by
  unfold dictSet
  by_cases hany : d.any (fun e => decide (e.1 = k)) = true
  · rw [if_pos hany]
    exact lookup_map_update_ne d k k2 v h
  · rw [if_neg hany]
    exact lookup_append_single_ne d k k2 v h

theorem alphaCond_beta_aux (phi psi : ℚ) (h : alpha_cond phi psi = true) :
    beta_cond phi psi = false := by
  simp only [alpha_cond, Bool.and_eq_true, decide_eq_true_eq] at h
  obtain ⟨⟨⟨h1, h2⟩, h3⟩, h4⟩ := h
  have h90 : decide (psi > 90) = false := decide_eq_false (by linarith)
  have h165 : decide (psi ≤ -165) = false := decide_eq_false (by linarith)
  simp [beta_cond, h90, h165]

/-- Claim C10: the initial-labeling ALPHA condition and BETA condition are
mutually exclusive, so the later BETA assignment never overwrites an ALPHA
assignment made by the same window evaluation. -/
theorem alpha_beta_window_tests_disjoint (phi psi : ℚ) (h : alpha_cond phi psi = true) :
    beta_cond phi psi = false :=
  alphaCond_beta_aux phi psi h

/-- Claim C10 witness at phi = -60, psi = -45. -/
theorem alpha_beta_window_tests_disjoint_witness : beta_cond (-60) (-45) = false :=
  alpha_beta_window_tests_disjoint (-60) (-45) (by decide)

/-- Claim C8 as amended: once the 8-atom buffer is full, the next backbone atom
triggers a window evaluation, and if the window's residue conditions hold and
phi is strictly between -145 and -35 degrees while psi is strictly between -70
and 50 degrees, that evaluation sets both residues' structure labels to ALPHA
(the first 8 backbone atoms themselves only fill the buffer and are never
evaluated; see the counterexample). -/
theorem window_alpha_labeling (dd : Dihedral) (st : SSState) (atom : Atom)
    (first_N first_C first_CA second_N second_C second_CA : Atom)
    (hbb : is_backbone atom = true)
    (hlen : st.window.length = 8)
    (hwok : window_ok (st.window.tail ++ [atom]) = true)
    (hfN : find_bb (st.window.tail ++ [atom])
        ((st.window.tail ++ [atom]).getD 0 dummyAtom).resid "N" = some first_N)
    (hfC : find_bb (st.window.tail ++ [atom])
        ((st.window.tail ++ [atom]).getD 0 dummyAtom).resid "C" = some first_C)
    (hfCA : find_bb (st.window.tail ++ [atom])
        ((st.window.tail ++ [atom]).getD 0 dummyAtom).resid "CA" = some first_CA)
    (hsN : find_bb (st.window.tail ++ [atom])
        ((st.window.tail ++ [atom]).getD 7 dummyAtom).resid "N" = some second_N)
    (hsC : find_bb (st.window.tail ++ [atom])
        ((st.window.tail ++ [atom]).getD 7 dummyAtom).resid "C" = some second_C)
    (hsCA : find_bb (st.window.tail ++ [atom])
        ((st.window.tail ++ [atom]).getD 7 dummyAtom).resid "CA" = some second_CA)
    (hphi1 : -145 < dd first_C.coordinates second_N.coordinates second_CA.coordinates
        second_C.coordinates)
    (hphi2 : dd first_C.coordinates second_N.coordinates second_CA.coordinates
        second_C.coordinates < -35)
    (hpsi1 : -70 < dd first_N.coordinates first_CA.coordinates first_C.coordinates
        second_N.coordinates)
    (hpsi2 : dd first_N.coordinates first_CA.coordinates first_C.coordinates
        second_N.coordinates < 50) :
    (ss_step dd st atom).map (fun st2 =>
        (st2.structure_dict.lookup (toString first_C.resid ++ "_" ++ first_C.chain),
         st2.structure_dict.lookup (toString second_C.resid ++ "_" ++ second_C.chain)))
      = some (some "ALPHA", some "ALPHA") := by
  have hnotlt : ¬ st.window.length < 8 := by omega
  unfold ss_step
  rw [if_pos hbb, if_neg hnotlt, if_pos hwok]
  unfold process_window
  dsimp only
  rw [hfN, hfC, hfCA, hsN, hsC, hsCA]
  have halpha : alpha_cond
      (dd first_C.coordinates second_N.coordinates second_CA.coordinates second_C.coordinates)
      (dd first_N.coordinates first_CA.coordinates first_C.coordinates second_N.coordinates)
        = true := by
    simp only [alpha_cond, Bool.and_eq_true, decide_eq_true_eq]
    exact ⟨⟨⟨hphi1, hphi2⟩, hpsi1⟩, hpsi2⟩
  have hbeta := alphaCond_beta_aux _ _ halpha
  simp only [halpha, if_true, hbeta, Bool.false_eq_true, if_false, Option.map_some',
    Option.some.injEq]
  by_cases hk : (toString first_C.resid ++ "_" ++ first_C.chain)
      = (toString second_C.resid ++ "_" ++ second_C.chain)
  · rw [hk, lookup_dictSet_self]
  · rw [lookup_dictSet_ne _ _ _ _ hk, lookup_dictSet_self, lookup_dictSet_self]

/-- Claim C8 counterexample: with every dihedral equal to -60 degrees (phi and
psi both inside the ALPHA ranges), 8 consecutive backbone atoms across two
residues are NOT labeled ALPHA by the initial pass: the window check hides in
the else branch of the buffer fill, so the very first 8-atom window is never
evaluated and both residues stay OTHER. -/
theorem first_window_never_labeled :
    alpha_cond (-60) (-60) = true
      ∧ get_structure_dict ddm60 pdb8 = some [("1_A", "OTHER"), ("2_A", "OTHER")] := by
  constructor
  · decide
  · decide

/-- Claim C8 (amended) witness: the 9th backbone atom triggers the evaluation
and both residues are set to ALPHA. -/
theorem window_alpha_labeling_witness :
    (ss_step ddm60 ssSt0 (bbAtom "O" 2 8)).map (fun st2 =>
        (st2.structure_dict.lookup
          (toString (bbAtom "C" 1 3).resid ++ "_" ++ (bbAtom "C" 1 3).chain),
         st2.structure_dict.lookup
          (toString (bbAtom "C" 2 7).resid ++ "_" ++ (bbAtom "C" 2 7).chain)))
      = some (some "ALPHA", some "ALPHA") :=
  window_alpha_labeling ddm60 ssSt0 (bbAtom "O" 2 8)
    (bbAtom "N" 1 1) (bbAtom "C" 1 3) (bbAtom "CA" 1 2)
    (bbAtom "N" 2 5) (bbAtom "C" 2 7) (bbAtom "CA" 2 6)
    (by decide) (by decide) (by decide)
    (by decide) (by decide) (by decide)
    (by decide) (by decide) (by decide)
    (by decide) (by decide) (by decide) (by decide)

theorem demoteOnly_refl (p : PDB) : DemoteOnly p p := by
  unfold DemoteOnly
  rw [List.forall₂_same]
  intro x _
  exact ⟨rfl, Or.inl rfl⟩

theorem demotePair_trans {x y z : Nat × Atom} (h1 : demotePair x y) (h2 : demotePair y z) :
    demotePair x z := by
  obtain ⟨he1, hd1⟩ := h1
  obtain ⟨he2, hd2⟩ := h2
  refine ⟨he1.trans he2, ?_⟩
  rcases hd1 with h1 | h1
  · rw [h1] at hd2
    exact hd2
  · rcases hd2 with h2 | h2
    · rw [h1] at h2
      exact Or.inr h2
    · rw [h1] at h2
      exact Or.inr (h2.trans rfl)

theorem demoteOnly_trans : ∀ {p q r : PDB}, DemoteOnly p q → DemoteOnly q r → DemoteOnly p r := by
  have key : ∀ {l1 l2 : List (Nat × Atom)}, List.Forall₂ demotePair l1 l2 →
      ∀ {l3}, List.Forall₂ demotePair l2 l3 → List.Forall₂ demotePair l1 l3 := by
    intro l1 l2 h1
    induction h1 with
    | nil =>
      intro l3 h2
      cases h2
      exact List.Forall₂.nil
    | cons hxy h1 ih =>
      intro l3 h2
      cases h2 with
      | cons hyz h2 => exact List.Forall₂.cons (demotePair_trans hxy hyz) (ih h2)
  intro p q r h1 h2
  exact key h1 h2

theorem demoteOnly_set (p : PDB) (c : String) (r : Int) :
    DemoteOnly p (set_structure_of_residue p c r "OTHER") := by
  unfold DemoteOnly set_structure_of_residue
  simp only
  induction p.all_atoms with
  | nil => exact List.Forall₂.nil
  | cons x l ih =>
    rw [List.map_cons]
    refine List.Forall₂.cons ?_ ih
    by_cases h : x.2.chain = c ∧ x.2.resid = r
    · rw [if_pos h]
      exact ⟨rfl, Or.inr rfl⟩
    · rw [if_neg h]
      exact ⟨rfl, Or.inl rfl⟩

theorem forall₂_mem_right {α β : Type} {R : α → β → Prop} :
    ∀ {l1 : List α} {l2 : List β}, List.Forall₂ R l1 l2 → ∀ b ∈ l2, ∃ a ∈ l1, R a b := by
  intro l1 l2 h
  induction h with
  | nil => intro b hb; cases hb
  | cons hxy h ih =>
    intro b hb
    rcases List.mem_cons.mp hb with rfl | hb
    · exact ⟨_, List.mem_cons_self _ _, hxy⟩
    · obtain ⟨a, ha, hr⟩ := ih b hb
      exact ⟨a, List.mem_cons_of_mem _ ha, hr⟩

theorem mem_labelKeys (p : PDB) (s : String) (k : String × Int) :
    k ∈ labelKeys p s
      ↔ ∃ ia ∈ p.all_atoms, ia.2.structure_ = s ∧ (ia.2.chain, ia.2.resid) = k := by
  unfold labelKeys
  rw [List.mem_toFinset]
  constructor
  · intro h
    obtain ⟨ia, hia, hk⟩ := List.mem_map.mp h
    obtain ⟨hmem, hstr⟩ := List.mem_filter.mp hia
    exact ⟨ia, hmem, by simpa using hstr, hk⟩
  · rintro ⟨ia, hmem, hstr, hk⟩
    exact List.mem_map.mpr ⟨ia, List.mem_filter.mpr ⟨hmem, by simpa using hstr⟩, hk⟩

theorem labelKeys_mono {p q : PDB} (s : String) (hs : s ≠ "OTHER") (h : DemoteOnly p q) :
    labelKeys q s ⊆ labelKeys p s := by
  intro k hk
  obtain ⟨ia, hmem, hstr, hkey⟩ := (mem_labelKeys q s k).mp hk
  obtain ⟨x, hx, hpair⟩ := forall₂_mem_right h ia hmem
  obtain ⟨-, hd⟩ := hpair
  rcases hd with hd | hd
  · refine (mem_labelKeys p s k).mpr ⟨x, hx, ?_, ?_⟩
    · rw [← hd]; exact hstr
    · rw [← hkey, hd]
  · rw [hd] at hstr
    exact absurd hstr.symm hs

theorem lookup_mem {l : List (Nat × Atom)} {i : Nat} {a : Atom}
    (h : l.lookup i = some a) : (i, a) ∈ l := by
  induction l with
  | nil => cases h
  | cons x l ih =>
    obtain ⟨j, b⟩ := x
    by_cases hj : i = j
    · subst hj
      have : (i == i) = true := by simp
      simp only [List.lookup, this] at h
      cases h
      exact List.mem_cons_self _ _
    · have hb : (i == j) = false := beq_eq_false_iff_ne.mpr hj
      simp only [List.lookup, hb] at h
      exact List.mem_cons_of_mem _ (ih h)

theorem labelKeys_member (p : PDB) (i : Nat) (a : Atom) (s : String)
    (hl : p.all_atoms.lookup i = some a) (hstr : a.structure_ = s) :
    (a.chain, a.resid) ∈ labelKeys p s :=
  (mem_labelKeys p s _).mpr ⟨(i, a), lookup_mem hl, hstr, rfl⟩

theorem labelKeys_erase (p : PDB) (c : String) (r : Int) (s : String) (hs : s ≠ "OTHER") :
    (c, r) ∉ labelKeys (set_structure_of_residue p c r "OTHER") s := by
  intro hmem
  obtain ⟨ia, hia, hstr, hkey⟩ :=
    (mem_labelKeys (set_structure_of_residue p c r "OTHER") s _).mp hmem
  unfold set_structure_of_residue at hia
  simp only at hia
  obtain ⟨x, -, hfx⟩ := List.mem_map.mp hia
  by_cases hc : x.2.chain = c ∧ x.2.resid = r
  · rw [if_pos hc] at hfx
    rw [← hfx] at hstr
    exact hs (hstr.symm)
  · rw [if_neg hc] at hfx
    rw [← hfx] at hkey
    apply hc
    exact ⟨congrArg Prod.fst hkey, congrArg Prod.snd hkey⟩

theorem card_lt_of_demote (p : PDB) (i : Nat) (a : Atom) (s : String) (hs : s ≠ "OTHER")
    (hl : p.all_atoms.lookup i = some a) (hstr : a.structure_ = s) :
    (labelKeys (set_structure_of_residue p a.chain a.resid "OTHER") s).card
      < (labelKeys p s).card := by
  apply Finset.card_lt_card
  have hsub := labelKeys_mono s hs (demoteOnly_set p a.chain a.resid)
  rw [Finset.ssubset_iff_of_subset hsub]
  exact ⟨(a.chain, a.resid), labelKeys_member p i a s hl hstr,
    labelKeys_erase p a.chain a.resid s hs⟩

theorem card_le_of_demoteOnly {p q : PDB} (s : String) (hs : s ≠ "OTHER")
    (h : DemoteOnly p q) : (labelKeys q s).card ≤ (labelKeys p s).card :=
  Finset.card_le_card (labelKeys_mono s hs h)

theorem goodStep_id (s : String) (x : PDB × Bool) : GoodStep s x x :=
  ⟨demoteOnly_refl _, le_refl _, fun h => ⟨rfl, h⟩,
    fun h1 h2 => absurd h2 (by rw [h1]; exact Bool.false_ne_true)⟩

theorem goodStep_trans {s : String} {x y z : PDB × Bool}
    (h1 : GoodStep s x y) (h2 : GoodStep s y z) : GoodStep s x z := by
  obtain ⟨d1, c1, f1, s1⟩ := h1
  obtain ⟨d2, c2, f2, s2⟩ := h2
  refine ⟨demoteOnly_trans d1 d2, le_trans c2 c1, ?_, ?_⟩
  · intro hz
    obtain ⟨hzy, hy2⟩ := f2 hz
    obtain ⟨hyx, hx2⟩ := f1 hy2
    exact ⟨hzy.trans hyx, hx2⟩
  · intro hx hz
    cases hy : y.2 with
    | true => exact lt_of_le_of_lt c2 (s1 hx hy)
    | false =>
      obtain ⟨hyx, -⟩ := f1 hy
      have hlt := s2 hy hz
      rw [hyx] at hlt
      exact hlt

theorem foldl_goodStep {α : Type} (s : String) (step : PDB × Bool → α → PDB × Bool)
    (l : List α) (h : ∀ x ∈ l, ∀ pc, GoodStep s pc (step pc x)) :
    ∀ pc, GoodStep s pc (l.foldl step pc) := by
  induction l with
  | nil => intro pc; exact goodStep_id s pc
  | cons x l ih =>
    intro pc
    rw [List.foldl_cons]
    exact goodStep_trans (h x (List.mem_cons_self _ _) pc)
      (ih (fun y hy => h y (List.mem_cons_of_mem _ hy)) (step pc x))

theorem goodStep_demote_branch (s : String) (hs1 : s ≠ "OTHER") (hs2 : s ≠ "")
    (pc : PDB × Bool) (i : Nat) (cond : Prop) [Decidable cond]
    (hcond : cond → (getAtom pc.1 i).structure_ = s) :
    GoodStep s pc
      (if cond then
        (set_structure_of_residue pc.1 (getAtom pc.1 i).chain (getAtom pc.1 i).resid "OTHER",
          true)
       else pc) := by
  by_cases hc : cond
  · rw [if_pos hc]
    have hstr := hcond hc
    cases hl : pc.1.all_atoms.lookup i with
    | none =>
      exfalso
      unfold getAtom at hstr
      rw [hl] at hstr
      have hempty : ("" : String) = s := hstr
      exact hs2 hempty.symm
    | some a =>
      have hga : getAtom pc.1 i = a := by unfold getAtom; rw [hl]; rfl
      rw [hga]
      have hstr2 : a.structure_ = s := by rw [← hga]; exact hstr
      have hlt := card_lt_of_demote pc.1 i a s hs1 hl hstr2
      exact ⟨demoteOnly_set pc.1 a.chain a.resid, le_of_lt hlt,
        fun h => absurd h (by simp), fun _ _ => hlt⟩
  · rw [if_neg hc]
    exact goodStep_id s pc

theorem alpha_pass_a_good (CA_list : List Nat) (pc : PDB × Bool) :
    GoodStep "ALPHA" pc (alpha_pass_a CA_list pc) := by
  unfold alpha_pass_a
  refine foldl_goodStep "ALPHA" _ CA_list ?_ pc
  intro i _ pc2
  exact goodStep_demote_branch "ALPHA" (by decide) (by decide) pc2 i
    ((getAtom pc2.1 i).structure_ = "ALPHA"
      ∧ alpha_close_exists pc2.1 CA_list (getAtom pc2.1 i) = false)
    (fun h => h.1)

theorem beta_pass_a_good (CA_list : List Nat) (pc : PDB × Bool) :
    GoodStep "BETA" pc (beta_pass_a CA_list pc) := by
  unfold beta_pass_a
  refine foldl_goodStep "BETA" _ CA_list ?_ pc
  intro i _ pc2
  exact goodStep_demote_branch "BETA" (by decide) (by decide) pc2 i
    ((getAtom pc2.1 i).structure_ = "BETA"
      ∧ beta_close_exists pc2.1 CA_list i (getAtom pc2.1 i) = false)
    (fun h => h.1)

theorem demoteOnly_foldl_demote (run : List Nat) : ∀ p, DemoteOnly p (run.foldl demote p) := by
  induction run with
  | nil => exact demoteOnly_refl
  | cons r run ih =>
    intro p
    rw [List.foldl_cons]
    exact demoteOnly_trans (demoteOnly_set p (getAtom p r).chain (getAtom p r).resid) (ih _)

theorem goodStep_pattern (s : String) (hs1 : s ≠ "OTHER") (hs2 : s ≠ "")
    (pc : PDB × Bool) (pre : Nat) (run : List Nat) (post : Nat) (hrun : run ≠ []) :
    GoodStep s pc (pattern_demote s pc pre run post) := by
  unfold pattern_demote
  by_cases hc : stAt pc.1 pre ≠ s ∧ (∀ i ∈ run, stAt pc.1 i = s) ∧ stAt pc.1 post ≠ s
  · rw [if_pos hc]
    obtain ⟨r, rest, rfl⟩ : ∃ r rest, run = r :: rest := by
      cases run with
      | nil => exact absurd rfl hrun
      | cons r rest => exact ⟨r, rest, rfl⟩
    have hstr : (getAtom pc.1 r).structure_ = s := hc.2.1 r (List.mem_cons_self _ _)
    cases hl : pc.1.all_atoms.lookup r with
    | none =>
      exfalso
      unfold stAt getAtom at hstr
      rw [hl] at hstr
      have hempty : ("" : String) = s := hstr
      exact hs2 hempty.symm
    | some a =>
      have hga : getAtom pc.1 r = a := by unfold getAtom; rw [hl]; rfl
      have hlt : (labelKeys (demote pc.1 r) s).card < (labelKeys pc.1 s).card := by
        unfold demote
        rw [hga]
        exact card_lt_of_demote pc.1 r a s hs1 hl (by rw [← hga]; exact hstr)
      have hd := demoteOnly_foldl_demote (r :: rest) pc.1
      have hle : (labelKeys ((r :: rest).foldl demote pc.1) s).card
          < (labelKeys pc.1 s).card := by
        rw [List.foldl_cons]
        exact lt_of_le_of_lt
          (card_le_of_demoteOnly s hs1 (demoteOnly_foldl_demote rest (demote pc.1 r))) hlt
      exact ⟨hd, le_of_lt hle, fun h => absurd h (by simp), fun _ _ => hle⟩
  · rw [if_neg hc]
    exact goodStep_id s pc

theorem alpha_window_patterns_nonempty (a b c d e f : Nat) :
    ∀ t ∈ alpha_window_patterns a b c d e f, t.2.1 ≠ [] := by
  intro t ht
  simp only [alpha_window_patterns, List.mem_cons, List.not_mem_nil, or_false] at ht
  rcases ht with rfl | rfl | rfl | rfl | rfl | rfl | rfl | rfl | rfl | rfl <;> simp

theorem beta_window_patterns_nonempty (a b c d : Nat) :
    ∀ t ∈ beta_window_patterns a b c d, t.2.1 ≠ [] := by
  intro t ht
  simp only [beta_window_patterns, List.mem_cons, List.not_mem_nil, or_false] at ht
  rcases ht with rfl | rfl | rfl <;> simp

theorem alpha_pass_b_window_good (CA_list : List Nat) (k : Nat) (pc : PDB × Bool) :
    GoodStep "ALPHA" pc (alpha_pass_b_window CA_list pc k) := by
  unfold alpha_pass_b_window
  dsimp only
  by_cases hseq : seqResid pc.1 [CA_list.getD k 0, CA_list.getD (k + 1) 0,
      CA_list.getD (k + 2) 0, CA_list.getD (k + 3) 0, CA_list.getD (k + 4) 0,
      CA_list.getD (k + 5) 0] = true
  · rw [if_pos hseq]
    refine foldl_goodStep "ALPHA" _ _ ?_ pc
    intro t ht pc2
    exact goodStep_pattern "ALPHA" (by decide) (by decide) pc2 t.1 t.2.1 t.2.2
      (alpha_window_patterns_nonempty _ _ _ _ _ _ t ht)
  · rw [if_neg hseq]
    exact goodStep_id _ pc

theorem beta_pass_b_window_good (CA_list : List Nat) (k : Nat) (pc : PDB × Bool) :
    GoodStep "BETA" pc (beta_pass_b_window CA_list pc k) := by
  unfold beta_pass_b_window
  dsimp only
  by_cases hseq : seqResid pc.1 [CA_list.getD k 0, CA_list.getD (k + 1) 0,
      CA_list.getD (k + 2) 0, CA_list.getD (k + 3) 0] = true
  · rw [if_pos hseq]
    refine foldl_goodStep "BETA" _ _ ?_ pc
    intro t ht pc2
    exact goodStep_pattern "BETA" (by decide) (by decide) pc2 t.1 t.2.1 t.2.2
      (beta_window_patterns_nonempty _ _ _ _ t ht)
  · rw [if_neg hseq]
    exact goodStep_id _ pc

theorem alpha_sweep_good (CA_list : List Nat) (p : PDB) :
    GoodStep "ALPHA" (p, false) (alpha_sweep CA_list p) := by
  unfold alpha_sweep alpha_pass_b
  exact goodStep_trans (alpha_pass_a_good CA_list (p, false))
    (foldl_goodStep _ _ _ (fun k _ pc => alpha_pass_b_window_good CA_list k pc) _)

theorem beta_sweep_good (CA_list : List Nat) (p : PDB) :
    GoodStep "BETA" (p, false) (beta_sweep CA_list p) := by
  unfold beta_sweep beta_pass_b
  exact goodStep_trans (beta_pass_a_good CA_list (p, false))
    (foldl_goodStep _ _ _ (fun k _ pc => beta_pass_b_window_good CA_list k pc) _)

theorem alpha_loop_fixed (CA_list : List Nat) :
    ∀ (fuel : Nat) (p : PDB), (labelKeys p "ALPHA").card < fuel →
      (alpha_sweep CA_list (alpha_loop CA_list fuel p)).2 = false := by
  intro fuel
  induction fuel with
  | zero => intro p h; omega
  | succ fuel ih =>
    intro p h
    unfold alpha_loop
    cases hsw : alpha_sweep CA_list p with
    | mk p2 ch =>
      cases ch with
      | true =>
        show (alpha_sweep CA_list (alpha_loop CA_list fuel p2)).2 = false
        apply ih
        have hlt := (alpha_sweep_good CA_list p).2.2.2 rfl (by rw [hsw])
        rw [hsw] at hlt
        dsimp only at hlt
        omega
      | false =>
        show (alpha_sweep CA_list p2).2 = false
        have hp2 : p2 = p := by
          have := ((alpha_sweep_good CA_list p).2.2.1 (by rw [hsw])).1
          rw [hsw] at this
          exact this
        rw [hp2, hsw]

theorem alpha_loop_demoteOnly (CA_list : List Nat) :
    ∀ (fuel : Nat) (p : PDB), DemoteOnly p (alpha_loop CA_list fuel p) := by
  intro fuel
  induction fuel with
  | zero => intro p; exact demoteOnly_refl p
  | succ fuel ih =>
    intro p
    unfold alpha_loop
    cases hsw : alpha_sweep CA_list p with
    | mk p2 ch =>
      cases ch with
      | true =>
        show DemoteOnly p (alpha_loop CA_list fuel p2)
        have hd : DemoteOnly p p2 := by
          have h0 := (alpha_sweep_good CA_list p).1
          rw [hsw] at h0
          exact h0
        exact demoteOnly_trans hd (ih p2)
      | false =>
        show DemoteOnly p p2
        have h0 := (alpha_sweep_good CA_list p).1
        rw [hsw] at h0
        exact h0

theorem beta_loop_fixed (CA_list : List Nat) :
    ∀ (fuel : Nat) (p : PDB), (labelKeys p "BETA").card < fuel →
      (beta_sweep CA_list (beta_loop CA_list fuel p)).2 = false := by
  intro fuel
  induction fuel with
  | zero => intro p h; omega
  | succ fuel ih =>
    intro p h
    unfold beta_loop
    cases hsw : beta_sweep CA_list p with
    | mk p2 ch =>
      cases ch with
      | true =>
        show (beta_sweep CA_list (beta_loop CA_list fuel p2)).2 = false
        apply ih
        have hlt := (beta_sweep_good CA_list p).2.2.2 rfl (by rw [hsw])
        rw [hsw] at hlt
        dsimp only at hlt
        omega
      | false =>
        show (beta_sweep CA_list p2).2 = false
        have hp2 : p2 = p := by
          have := ((beta_sweep_good CA_list p).2.2.1 (by rw [hsw])).1
          rw [hsw] at this
          exact this
        rw [hp2, hsw]

theorem beta_loop_demoteOnly (CA_list : List Nat) :
    ∀ (fuel : Nat) (p : PDB), DemoteOnly p (beta_loop CA_list fuel p) := by
  intro fuel
  induction fuel with
  | zero => intro p; exact demoteOnly_refl p
  | succ fuel ih =>
    intro p
    unfold beta_loop
    cases hsw : beta_sweep CA_list p with
    | mk p2 ch =>
      cases ch with
      | true =>
        show DemoteOnly p (beta_loop CA_list fuel p2)
        have hd : DemoteOnly p p2 := by
          have h0 := (beta_sweep_good CA_list p).1
          rw [hsw] at h0
          exact h0
        exact demoteOnly_trans hd (ih p2)
      | false =>
        show DemoteOnly p p2
        have h0 := (beta_sweep_good CA_list p).1
        rw [hsw] at h0
        exact h0

/-- Claim C9: the alpha and beta post-processing loops terminate: a sweep that
reports a change strictly decreases the number of residues labeled ALPHA
(respectively BETA), labels are only ever demoted to OTHER and never promoted,
and the repeat-until-no-change loops reach states on which a further sweep
reports no change. -/
theorem postprocessing_terminates (CA_list : List Nat) (p : PDB) :
    ((alpha_sweep CA_list p).2 = true →
        (labelKeys (alpha_sweep CA_list p).1 "ALPHA").card < (labelKeys p "ALPHA").card)
      ∧ DemoteOnly p (alpha_sweep CA_list p).1
      ∧ DemoteOnly p (process_alpha_helices CA_list p)
      ∧ (alpha_sweep CA_list (process_alpha_helices CA_list p)).2 = false
      ∧ ((beta_sweep CA_list p).2 = true →
          (labelKeys (beta_sweep CA_list p).1 "BETA").card < (labelKeys p "BETA").card)
      ∧ DemoteOnly p (beta_sweep CA_list p).1
      ∧ DemoteOnly p (process_beta_sheets CA_list p)
      ∧ (beta_sweep CA_list (process_beta_sheets CA_list p)).2 = false :=
  ⟨fun h => (alpha_sweep_good CA_list p).2.2.2 rfl h,
    (alpha_sweep_good CA_list p).1,
    alpha_loop_demoteOnly CA_list _ p,
    alpha_loop_fixed CA_list _ p (by omega),
    fun h => (beta_sweep_good CA_list p).2.2.2 rfl h,
    (beta_sweep_good CA_list p).1,
    beta_loop_demoteOnly CA_list _ p,
    beta_loop_fixed CA_list _ p (by omega)⟩

/-- Claim C9 witness: on the lone-ALPHA model the changing sweep strictly
decreases the ALPHA residue count. -/
theorem postprocessing_terminates_witness :
    (labelKeys (alpha_sweep [1] alphaCAPDB).1 "ALPHA").card
      < (labelKeys alphaCAPDB "ALPHA").card :=
  (postprocessing_terminates [1] alphaCAPDB).1 (by decide)
